import Mathlib

/-!
# telemetry.BuildRequest (newrelic-lambda-extension)

A shallow embedding of `src/telemetry/request.go` together with the parts of the Go
standard library it runs through (`encoding/json` string and integer encoding,
`unicode/utf8` rune decoding, `net/http` request construction and header handling),
and theorems about the request that `BuildRequest` produces.

Go strings and byte slices are lists of bytes, written as natural numbers. The theorems
hold for every list; a number above 255, which no Go string holds, is read as an
invalid byte by every function below.
-/

namespace Telemetry

/-! ## Bytes and ASCII literals -/

/-- A Go `string` / `[]byte`: a sequence of bytes. -/
abbrev Bytes := List Nat

/-- The bytes of an ASCII literal of the source. -/
def lit (s : String) : Bytes := s.data.map Char.toNat

/-! ## unicode/utf8 -/

/-- The constant `utf8.RuneError` (U+FFFD). -/
def RuneError : Nat := 0xFFFD

/-- The width a lead byte `C2..F4` announces: the low bits of the table `first` of
`unicode/utf8`. -/
def leadWidth (b0 : Nat) : Nat := if b0 < 0xE0 then 2 else if b0 < 0xF0 then 3 else 4

/-- The least second byte a lead byte accepts (`acceptRanges[..].lo`). -/
def acceptLo (b0 : Nat) : Nat := if b0 = 0xE0 then 0xA0 else if b0 = 0xF0 then 0x90 else 0x80

/-- The greatest second byte a lead byte accepts (`acceptRanges[..].hi`). -/
def acceptHi (b0 : Nat) : Nat := if b0 = 0xED then 0x9F else if b0 = 0xF4 then 0x8F else 0xBF

/-- Go `utf8.DecodeRuneInString`: the first rune of `s` and its width in bytes.
The table `first` of the Go source is written as comparisons: a byte below `80` is
ASCII, the lead bytes `C2..F4` start a form of `leadWidth` bytes, every other byte is
invalid. The second byte must lie in `acceptLo..acceptHi` and the later bytes in
`80..BF`. Masks and shifts are remainders and products. An invalid or short encoding
decodes to `(RuneError, 1)`, the empty string to `(RuneError, 0)`. -/
def decodeRune : Bytes → Nat × Nat
  | [] => (RuneError, 0)
  | b0 :: rest =>
    if b0 < 0x80 then (b0, 1)
    else if b0 < 0xC2 ∨ 0xF4 < b0 then (RuneError, 1)
    else if rest.length + 1 < leadWidth b0 then (RuneError, 1)
    else
      let b1 := rest.getD 0 0
      if b1 < acceptLo b0 ∨ acceptHi b0 < b1 then (RuneError, 1)
      else if leadWidth b0 ≤ 2 then ((b0 % 32) * 64 + b1 % 64, 2)
      else
        let b2 := rest.getD 1 0
        if b2 < 0x80 ∨ 0xBF < b2 then (RuneError, 1)
        else if leadWidth b0 ≤ 3 then ((b0 % 16) * 4096 + (b1 % 64) * 64 + b2 % 64, 3)
        else
          let b3 := rest.getD 2 0
          if b3 < 0x80 ∨ 0xBF < b3 then (RuneError, 1)
          else ((b0 % 8) * 262144 + (b1 % 64) * 4096 + (b2 % 64) * 64 + b3 % 64, 4)

/-- Go `utf8.EncodeRune` (as `utf8.AppendRune`): the UTF-8 bytes of a rune; surrogates and
values above U+10FFFF encode as U+FFFD. -/
def encodeRune (r : Nat) : Bytes :=
  if r < 0x80 then [r]
  else if r < 0x800 then [0xC0 + r / 64, 0x80 + r % 64]
  else if (0xD800 ≤ r ∧ r ≤ 0xDFFF) ∨ 0x10FFFF < r then [0xEF, 0xBF, 0xBD]
  else if r < 0x10000 then [0xE0 + r / 4096, 0x80 + (r / 64) % 64, 0x80 + r % 64]
  else [0xF0 + r / 262144, 0x80 + (r / 4096) % 64, 0x80 + (r / 64) % 64, 0x80 + r % 64]

/-- Go `utf8.Valid`: no position of `s` decodes to `(RuneError, 1)`. -/
def validUTF8Aux : Nat → Bytes → Bool
  | 0, s => s.isEmpty
  | _ + 1, [] => true
  | fuel + 1, b :: rest =>
    let r := decodeRune (b :: rest)
    if r.1 = RuneError ∧ r.2 = 1 then false
    else validUTF8Aux fuel ((b :: rest).drop r.2)

/-- Go `utf8.Valid`. -/
def validUTF8 (s : Bytes) : Bool := validUTF8Aux s.length s

/-- What `encoding/json` makes of a Go string: every byte that does not start a valid
UTF-8 encoding is replaced by U+FFFD (`EF BF BD`), valid encodings are kept. -/
def coerceUTF8Aux : Nat → Bytes → Bytes
  | 0, _ => []
  | _ + 1, [] => []
  | fuel + 1, b :: rest =>
    let r := decodeRune (b :: rest)
    if r.1 = RuneError ∧ r.2 = 1 then [0xEF, 0xBF, 0xBD] ++ coerceUTF8Aux fuel rest
    else (b :: rest).take r.2 ++ coerceUTF8Aux fuel ((b :: rest).drop r.2)

/-- The string `encoding/json` writes for `s`, see `coerceUTF8Aux`. -/
def coerceUTF8 (s : Bytes) : Bytes := coerceUTF8Aux s.length s

/-! ## encoding/json: encoding -/

/-- The table `hex` of `encoding/json`: `"0123456789abcdef"`. -/
def hexDigit (n : Nat) : Nat := if n < 10 then 0x30 + n else 0x61 + (n - 10)

/-- The table `htmlSafeSet` of `encoding/json`: the ASCII bytes written without escaping
when HTML escaping is on (the default of `json.Marshal`): `20..7F` except
`"`, `&`, `<`, `>` and `\`. -/
def htmlSafe (b : Nat) : Bool :=
  0x20 ≤ b && b < 0x80 && b != 0x22 && b != 0x26 && b != 0x3C && b != 0x3E && b != 0x5C

/-- The escape `encoding/json` writes for an ASCII byte outside `htmlSafeSet`. (Go 1.22
and later write the two-character escapes `\b` and `\f` for the bytes `08` and `0C`; a
JSON reader takes either form for the same byte.) -/
def escapeAscii (b : Nat) : Bytes :=
  if b = 0x5C ∨ b = 0x22 then [0x5C, b]
  else if b = 0x0A then [0x5C, 0x6E]
  else if b = 0x0D then [0x5C, 0x72]
  else if b = 0x09 then [0x5C, 0x74]
  else [0x5C, 0x75, 0x30, 0x30, hexDigit (b / 16), hexDigit (b % 16)]

/-- The loop of `encodeState.string` of `encoding/json` (with `escapeHTML`), between the
two quotes, on the bytes from index `i` on. The Go loop copies the unescaped stretch
`src[start:i]` when it meets a byte to escape; here every byte is written when it is
passed, which gives the same output. `fuel` bounds the iterations (`len(src)`). -/
def appendStringAux : Nat → Bytes → Bytes
  | 0, _ => []
  | _ + 1, [] => []
  | fuel + 1, b :: rest =>
    if b < 0x80 then
      (if htmlSafe b then [b] else escapeAscii b) ++ appendStringAux fuel rest
    else
      let r := decodeRune (b :: rest)
      if r.1 = RuneError ∧ r.2 = 1 then
        lit "\\ufffd" ++ appendStringAux fuel rest
      else if r.1 = 0x2028 ∨ r.1 = 0x2029 then
        lit "\\u202" ++ [hexDigit (r.1 % 16)] ++ appendStringAux fuel ((b :: rest).drop r.2)
      else
        (b :: rest).take r.2 ++ appendStringAux fuel ((b :: rest).drop r.2)

/-- The body of the JSON string `encoding/json` writes for a Go string, without the quotes. -/
def escapeString (s : Bytes) : Bytes := appendStringAux s.length s

/-- The JSON string `encoding/json` writes for a Go string. -/
def encodeString (s : Bytes) : Bytes := [0x22] ++ escapeString s ++ [0x22]

/-- Go `strconv.FormatUint(n, 10)`: the decimal digits of `n`, most significant first,
collected from the least significant one. `fuel` bounds the divisions by ten. -/
def formatBits : Nat → Nat → Bytes → Bytes
  | 0, _, acc => acc
  | fuel + 1, n, acc =>
    if n < 10 then (0x30 + n) :: acc
    else formatBits fuel (n / 10) ((0x30 + n % 10) :: acc)

/-- The decimal digits of a natural number. -/
def formatNat (n : Nat) : Bytes := formatBits (n + 1) n []

/-- Go `strconv.AppendInt(_, i, 10)`, which `encoding/json` uses for an `int64`. -/
def formatInt (i : Int) : Bytes :=
  if i < 0 then 0x2D :: formatNat i.natAbs else formatNat i.toNat

/-! ## The records of `request.go` -/

/-- Go `error`: the text `Error()` returns. -/
structure GoError where
  message : Bytes
  deriving DecidableEq, Repr

/-- The struct `RequestContext`. -/
structure RequestContext where
  FunctionName : Bytes
  InvokedFunctionARN : Bytes
  LogGroupName : Bytes
  LogStreamName : Bytes
  deriving DecidableEq, Repr

/-- The struct `RequestData`. -/
structure RequestData where
  Context : RequestContext
  Entry : Bytes
  deriving DecidableEq, Repr

/-- The struct `LogsEvent`; `Timestamp` is an `int64`. -/
structure LogsEvent where
  ID : Bytes
  Message : Bytes
  Timestamp : Int
  deriving DecidableEq, Repr

/-- The struct `LogsEntry`. `LogEvents` is a Go slice; the empty list stands for the nil
slice. -/
structure LogsEntry where
  LogEvents : List LogsEvent
  LogGroup : Bytes
  LogStream : Bytes
  MessageType : Bytes
  Owner : Bytes
  deriving DecidableEq, Repr

/-- The text `encoding/json` writes before the value of a struct field (`nameEscHTML`):
the quoted name and a colon. -/
def fieldName (name : String) : Bytes := [0x22] ++ lit name ++ [0x22, 0x3A]

/-- What `encoding/json` writes for a `LogsEvent`: an opening brace, the fields in
declaration order under the names of their `json` tags, separated by commas, and a
closing brace. -/
def marshalLogsEvent (e : LogsEvent) : Bytes :=
  [0x7B] ++ fieldName "id" ++ encodeString e.ID ++
  [0x2C] ++ fieldName "message" ++ encodeString e.Message ++
  [0x2C] ++ fieldName "timestamp" ++ formatInt e.Timestamp ++ [0x7D]

/-- The elements of a JSON array, separated by commas. -/
def marshalLogsEvents : List LogsEvent → Bytes
  | [] => []
  | [e] => marshalLogsEvent e
  | e :: es => marshalLogsEvent e ++ [0x2C] ++ marshalLogsEvents es

/-- What `encoding/json` writes for a `[]LogsEvent`: `null` for the nil slice. -/
def marshalLogsEventSlice (es : List LogsEvent) : Bytes :=
  if es = [] then lit "null" else [0x5B] ++ marshalLogsEvents es ++ [0x5D]

/-- What `encoding/json` writes for a `LogsEntry`. -/
def marshalLogsEntry (e : LogsEntry) : Bytes :=
  [0x7B] ++ fieldName "logEvents" ++ marshalLogsEventSlice e.LogEvents ++
  [0x2C] ++ fieldName "logGroup" ++ encodeString e.LogGroup ++
  [0x2C] ++ fieldName "logStream" ++ encodeString e.LogStream ++
  [0x2C] ++ fieldName "messageType" ++ encodeString e.MessageType ++
  [0x2C] ++ fieldName "owner" ++ encodeString e.Owner ++ [0x7D]

/-- What `encoding/json` writes for a `RequestContext`. -/
def marshalRequestContext (c : RequestContext) : Bytes :=
  [0x7B] ++ fieldName "function_name" ++ encodeString c.FunctionName ++
  [0x2C] ++ fieldName "invoked_function_arn" ++ encodeString c.InvokedFunctionARN ++
  [0x2C] ++ fieldName "log_group_name" ++ encodeString c.LogGroupName ++
  [0x2C] ++ fieldName "log_stream_name" ++ encodeString c.LogStreamName ++ [0x7D]

/-- What `encoding/json` writes for a `RequestData`. -/
def marshalRequestData (d : RequestData) : Bytes :=
  [0x7B] ++ fieldName "context" ++ marshalRequestContext d.Context ++
  [0x2C] ++ fieldName "entry" ++ encodeString d.Entry ++ [0x7D]

/-- The call `json.Marshal(logEntry)`: strings, an `int64` and a slice of structs always
encode, so the error is always nil. -/
def jsonMarshalLogsEntry (e : LogsEntry) : Except GoError Bytes := .ok (marshalLogsEntry e)

/-- The call `json.Marshal(data)`: the error is always nil. -/
def jsonMarshalRequestData (d : RequestData) : Except GoError Bytes :=
  .ok (marshalRequestData d)

/-! ## net/http -/

/-- The table `isTokenTable` of `net/http` (`httpguts.IsTokenRune` and
`textproto.validHeaderFieldByte`): the `tchar` bytes of RFC 7230. -/
def isTokenByte (b : Nat) : Bool :=
  (0x30 ≤ b && b ≤ 0x39) || (0x41 ≤ b && b ≤ 0x5A) || (0x61 ≤ b && b ≤ 0x7A) ||
  b == 0x21 || b == 0x23 || b == 0x24 || b == 0x25 || b == 0x26 || b == 0x27 ||
  b == 0x2A || b == 0x2B || b == 0x2D || b == 0x2E || b == 0x5E || b == 0x5F ||
  b == 0x60 || b == 0x7C || b == 0x7E

/-- Go `http.validMethod`: a non-empty sequence of token bytes. -/
def validMethod (method : Bytes) : Bool := !method.isEmpty && method.all isTokenByte

/-- The second loop of `textproto.canonicalMIMEHeaderKey`: the first letter and every
letter after a hyphen in upper case, the others in lower case. -/
def canonicalLoop : Bool → Bytes → Bytes
  | _, [] => []
  | upper, c :: rest =>
    let c1 :=
      if upper && 0x61 ≤ c && c ≤ 0x7A then c - 0x20
      else if !upper && 0x41 ≤ c && c ≤ 0x5A then c + 0x20
      else c
    c1 :: canonicalLoop (c1 == 0x2D) rest

/-- Go `textproto.CanonicalMIMEHeaderKey`: a key with a byte that is no token byte is
returned unchanged. -/
def canonicalMIMEHeaderKey (s : Bytes) : Bytes :=
  if s.all isTokenByte then canonicalLoop true s else s

/-- Go `http.Header`, a `map[string][]string`, as an association list in the order in
which the keys were first added. -/
abbrev Header := List (Bytes × List Bytes)

/-- The statement `h[key] = append(h[key], value)`. -/
def headerAppend : Header → Bytes → Bytes → Header
  | [], key, value => [(key, [value])]
  | (k, vs) :: rest, key, value =>
    if k = key then (k, vs ++ [value]) :: rest else (k, vs) :: headerAppend rest key value

/-- Go `Header.Add`. -/
def Header.Add (h : Header) (key value : Bytes) : Header :=
  headerAppend h (canonicalMIMEHeaderKey key) value

/-- The fields of `http.Request` that `http.NewRequest` fills from its arguments; `U` is
the type of a parsed URL (`*url.URL`). -/
structure Request (U : Type) where
  Method : Bytes
  URL : U
  Header : Header
  Body : Bytes
  ContentLength : Nat

/-- Go `http.NewRequest` with a `*bytes.Buffer` body. `parseURL` stands for `url.Parse`
(followed by the removal of an empty port from the host). The error for an invalid
method also quotes the method (`%q`), which is left out here. -/
def NewRequest {U : Type} (parseURL : Bytes → Except GoError U) (method url body : Bytes) :
    Except GoError (Request U) :=
  let method := if method = [] then lit "GET" else method
  if !validMethod method then
    .error ⟨lit "net/http: invalid method"⟩
  else
    match parseURL url with
    | .error err => .error err
    | .ok u =>
      .ok { Method := method, URL := u, Header := [], Body := body,
            ContentLength := body.length }

/-! ## BuildRequest -/

/-- Modelled from the spec: the type `api.InvocationEvent` is declared outside
`request.go`; `BuildRequest` reads its field `InvokedFunctionARN` (the invoked identity
reference of the spec) only. -/
structure InvocationEvent where
  InvokedFunctionARN : Bytes
  deriving DecidableEq, Repr

/-- Modelled from the spec: what `BuildRequest` takes from outside `request.go` during
one call: the identifier `util.UUID()` returns, the time `util.Timestamp()` returns
(epoch milliseconds), the gzip compressor `util.Compress`, and `url.Parse` of the
standard library. -/
structure Env (U : Type) where
  uuid : Bytes
  timestamp : Int
  compress : Bytes → Except GoError Bytes
  parseURL : Bytes → Except GoError U

/-- How a call of `BuildRequest` ends: it returns the pair `(*http.Request, error)`,
`none` standing for nil, or it stops with the run-time error of a nil pointer
dereference. -/
inductive Outcome (U : Type) where
  | returned (req : Option (Request U)) (err : Option GoError)
  | nilDereference

/-- Lines 53 to 58: the log entry with its single event. The fields `LogStream`,
`MessageType` and `Owner` keep their zero value. -/
def buildLogEntry {U : Type} (env : Env U) (payload functionName : Bytes) : LogsEntry :=
  let logEvent : LogsEvent :=
    { ID := env.uuid, Message := payload, Timestamp := env.timestamp }
  let logGroupName := lit "/aws/lambda/" ++ functionName
  { LogEvents := [logEvent], LogGroup := logGroupName,
    LogStream := [], MessageType := [], Owner := [] }

/-- Lines 65 to 70: the request context. -/
def buildContext (ev : InvocationEvent) (functionName : Bytes) : RequestContext :=
  let logGroupName := lit "/aws/lambda/" ++ functionName
  { FunctionName := functionName, InvokedFunctionARN := ev.InvokedFunctionARN,
    LogGroupName := logGroupName, LogStreamName := lit "placeholder" }

/-- The function `BuildRequest`. The pointer `invocationEvent` is `none` when nil; it is
dereferenced when the context is built (line 67). -/
def BuildRequest {U : Type} (env : Env U) (payload : Bytes)
    (invocationEvent : Option InvocationEvent)
    (functionName licenseKey url userAgent : Bytes) : Outcome U :=
  let logEntry := buildLogEntry env payload functionName
  match jsonMarshalLogsEntry logEntry with
  | .error err => .returned none (some err)
  | .ok entry =>
    match invocationEvent with
    | none => .nilDereference
    | some ev =>
      let context := buildContext ev functionName
      let data : RequestData := { Context := context, Entry := entry }
      match jsonMarshalRequestData data with
      | .error err => .returned none (some err)
      | .ok uncompressed =>
        match env.compress uncompressed with
        | .error err =>
          .returned none (some ⟨lit "error compressing data: " ++ err.message⟩)
        | .ok compressed =>
          match NewRequest env.parseURL (lit "POST") url compressed with
          | .error err =>
            .returned none (some ⟨lit "error creating request: " ++ err.message⟩)
          | .ok req =>
            let h := req.Header.Add (lit "Content-Encoding") (lit "gzip")
            let h := h.Add (lit "Content-Type") (lit "application/json")
            let h := h.Add (lit "User-Agent") userAgent
            let h := h.Add (lit "X-License-Key") licenseKey
            .returned (some { req with Header := h }) none

/-! ## Reading the body back: a JSON parser

The claims speak of the body "parsed as JSON". The reader below follows RFC 8259 on a
byte sequence: white space, the literals, integer numbers, strings with all their
escapes (a `\u` surrogate pair is one rune), arrays and objects. A number with a
fraction or an exponent is rejected: the only number of the wire format is an `int64`.
-/

/-- A JSON value. An object keeps its members in the order of the text. -/
inductive JSON where
  | null
  | bool (b : Bool)
  | num (n : Int)
  | str (s : Bytes)
  | arr (xs : List JSON)
  | obj (kvs : List (Bytes × JSON))

/-- The member of an object under a key (the first one of that name). -/
def JSON.get (key : Bytes) : JSON → Option JSON
  | .obj kvs => kvs.lookup key
  | _ => none

/-- The text of a JSON string. -/
def JSON.asString : JSON → Option Bytes
  | .str s => some s
  | _ => none

/-- The elements of a JSON array. -/
def JSON.asArray : JSON → Option (List JSON)
  | .arr xs => some xs
  | _ => none

/-- Skips JSON white space (space, tab, line feed, carriage return). -/
def skipWs : Bytes → Bytes
  | [] => []
  | b :: rest =>
    if b = 0x20 ∨ b = 0x09 ∨ b = 0x0A ∨ b = 0x0D then skipWs rest else b :: rest

/-- The value of a hexadecimal digit. -/
def hexVal (b : Nat) : Option Nat :=
  if 0x30 ≤ b ∧ b ≤ 0x39 then some (b - 0x30)
  else if 0x61 ≤ b ∧ b ≤ 0x66 then some (b - 0x61 + 10)
  else if 0x41 ≤ b ∧ b ≤ 0x46 then some (b - 0x41 + 10)
  else none

/-- The value of four hexadecimal digits. -/
def hex4 (a b c d : Nat) : Option Nat :=
  match hexVal a, hexVal b, hexVal c, hexVal d with
  | some a, some b, some c, some d => some (((a * 16 + b) * 16 + c) * 16 + d)
  | _, _, _, _ => none

/-- The byte a two-character escape stands for. -/
def simpleEscape (e : Nat) : Option Nat :=
  if e = 0x22 ∨ e = 0x5C ∨ e = 0x2F then some e
  else if e = 0x62 then some 0x08
  else if e = 0x66 then some 0x0C
  else if e = 0x6E then some 0x0A
  else if e = 0x72 then some 0x0D
  else if e = 0x74 then some 0x09
  else none

/-- What a pending high surrogate that found no low surrogate is read as: U+FFFD. -/
def flushPending : Option Nat → Bytes
  | none => []
  | some _ => [0xEF, 0xBF, 0xBD]

/-- Reads a JSON string after its opening quote: the text and the input after the
closing quote. `pending` is a high surrogate read from a `\u` escape that waits for its
low surrogate. Bytes below `20` are not allowed unescaped. -/
def parseStringBody : Option Nat → Bytes → Option (Bytes × Bytes)
  | _, [] => none
  | pending, b :: rest =>
    if b = 0x22 then some (flushPending pending, rest)
    else if b = 0x5C then
      match rest with
      | [] => none
      | e :: rest1 =>
        if e = 0x75 then
          match rest1 with
          | h1 :: h2 :: h3 :: h4 :: rest2 =>
            match hex4 h1 h2 h3 h4 with
            | none => none
            | some r =>
              match pending with
              | some hi =>
                if 0xDC00 ≤ r ∧ r ≤ 0xDFFF then
                  (parseStringBody none rest2).map fun p =>
                    (encodeRune (0x10000 + (hi - 0xD800) * 1024 + (r - 0xDC00)) ++ p.1, p.2)
                else if 0xD800 ≤ r ∧ r ≤ 0xDBFF then
                  (parseStringBody (some r) rest2).map fun p => ([0xEF, 0xBF, 0xBD] ++ p.1, p.2)
                else
                  (parseStringBody none rest2).map fun p =>
                    ([0xEF, 0xBF, 0xBD] ++ encodeRune r ++ p.1, p.2)
              | none =>
                if 0xD800 ≤ r ∧ r ≤ 0xDBFF then parseStringBody (some r) rest2
                else (parseStringBody none rest2).map fun p => (encodeRune r ++ p.1, p.2)
          | _ => none
        else
          match simpleEscape e with
          | none => none
          | some c =>
            (parseStringBody none rest1).map fun p => (flushPending pending ++ c :: p.1, p.2)
    else if b < 0x20 then none
    else (parseStringBody none rest).map fun p => (flushPending pending ++ b :: p.1, p.2)

/-- A decimal digit. -/
def isDigit (b : Nat) : Bool := 0x30 ≤ b && b ≤ 0x39

/-- The number a sequence of decimal digits stands for. -/
def digitsVal (ds : Bytes) : Nat := ds.foldl (fun a d => a * 10 + (d - 0x30)) 0

/-- Reads an integer number: an optional minus sign, then digits without a superfluous
leading zero; a fraction or an exponent is rejected. -/
def parseNumber (inp : Bytes) : Option (JSON × Bytes) :=
  let neg := inp.head? = some 0x2D
  let r0 := if neg then inp.tail else inp
  let ds := r0.takeWhile isDigit
  let r1 := r0.dropWhile isDigit
  if ds = [] then none
  else if ds.head? = some 0x30 ∧ 1 < ds.length then none
  else if r1.head? = some 0x2E ∨ r1.head? = some 0x65 ∨ r1.head? = some 0x45 then none
  else some (JSON.num (if neg then - (digitsVal ds : Int) else (digitsVal ds : Int)), r1)

/-- Reads a literal word. -/
def expectWord (w inp : Bytes) : Option Bytes :=
  if inp.take w.length = w then some (inp.drop w.length) else none

/-- Reads the elements of an array after the opening bracket, up to the closing one.
`pv` reads one value. -/
def parseElems (pv : Bytes → Option (JSON × Bytes)) : Nat → Bytes → Option (List JSON × Bytes)
  | 0, _ => none
  | n + 1, inp =>
    match pv inp with
    | none => none
    | some (v, r) =>
      match skipWs r with
      | [] => none
      | c :: r1 =>
        if c = 0x2C then (parseElems pv n r1).map fun p => (v :: p.1, p.2)
        else if c = 0x5D then some ([v], r1)
        else none

/-- Reads the members of an object after the opening brace, up to the closing one.
`pv` reads one value. -/
def parseMembers (pv : Bytes → Option (JSON × Bytes)) :
    Nat → Bytes → Option (List (Bytes × JSON) × Bytes)
  | 0, _ => none
  | n + 1, inp =>
    match skipWs inp with
    | [] => none
    | q :: r =>
      if q = 0x22 then
        match parseStringBody none r with
        | none => none
        | some (k, r1) =>
          match skipWs r1 with
          | [] => none
          | c :: r2 =>
            if c = 0x3A then
              match pv r2 with
              | none => none
              | some (v, r3) =>
                match skipWs r3 with
                | [] => none
                | d :: r4 =>
                  if d = 0x2C then (parseMembers pv n r4).map fun p => ((k, v) :: p.1, p.2)
                  else if d = 0x7D then some ([(k, v)], r4)
                  else none
            else none
      else none

/-- Reads one JSON value and returns it with the rest of the input. `fuel` bounds the
nesting depth and the number of members of an object or array. -/
def parseValue : Nat → Bytes → Option (JSON × Bytes)
  | 0, _ => none
  | fuel + 1, inp =>
    match skipWs inp with
    | [] => none
    | c :: r =>
      if c = 0x22 then (parseStringBody none r).map fun p => (JSON.str p.1, p.2)
      else if c = 0x7B then
        match skipWs r with
        | [] => none
        | d :: r1 =>
          if d = 0x7D then some (JSON.obj [], r1)
          else (parseMembers (parseValue fuel) fuel (d :: r1)).map fun p => (JSON.obj p.1, p.2)
      else if c = 0x5B then
        match skipWs r with
        | [] => none
        | d :: r1 =>
          if d = 0x5D then some (JSON.arr [], r1)
          else (parseElems (parseValue fuel) fuel (d :: r1)).map fun p => (JSON.arr p.1, p.2)
      else if c = 0x74 then (expectWord (lit "true") (c :: r)).map fun t => (JSON.bool true, t)
      else if c = 0x66 then (expectWord (lit "false") (c :: r)).map fun t => (JSON.bool false, t)
      else if c = 0x6E then (expectWord (lit "null") (c :: r)).map fun t => (JSON.null, t)
      else parseNumber (c :: r)

/-- Parses a whole text as one JSON value; only white space may follow the value. -/
def parseJSON (inp : Bytes) : Option JSON :=
  match parseValue (inp.length + 1) inp with
  | none => none
  | some (v, rest) => if skipWs rest = [] then some v else none

/-! ## Notions used in the proofs -/

/-- A valid two-byte encoding. -/
def V2 (b0 b1 : Nat) : Prop := 0xC2 ≤ b0 ∧ b0 ≤ 0xDF ∧ 0x80 ≤ b1 ∧ b1 ≤ 0xBF

/-- A valid three-byte encoding. -/
def V3 (b0 b1 b2 : Nat) : Prop :=
  0xE0 ≤ b0 ∧ b0 ≤ 0xEF ∧ acceptLo b0 ≤ b1 ∧ b1 ≤ acceptHi b0 ∧ 0x80 ≤ b2 ∧ b2 ≤ 0xBF

/-- A valid four-byte encoding. -/
def V4 (b0 b1 b2 b3 : Nat) : Prop :=
  0xF0 ≤ b0 ∧ b0 ≤ 0xF4 ∧ acceptLo b0 ≤ b1 ∧ b1 ≤ acceptHi b0 ∧ 0x80 ≤ b2 ∧ b2 ≤ 0xBF ∧
  0x80 ≤ b3 ∧ b3 ≤ 0xBF

/-- The tail of a text after an integer: it does not go on with a digit, a point or an
exponent. -/
def EndsNumber (t : Bytes) : Prop :=
  ∀ c r, t = c :: r → isDigit c = false ∧ c ≠ 0x2E ∧ c ≠ 0x65 ∧ c ≠ 0x45

/-- A key that is written between the quotes as it is. -/
def PlainKey (k : Bytes) : Prop := ∀ b ∈ k, 0x20 ≤ b ∧ b ≠ 0x22 ∧ b ≠ 0x5C

instance (k : Bytes) : Decidable (PlainKey k) := by unfold PlainKey; infer_instance

/-- A byte that is no white space. -/
def NotWs (c : Nat) : Prop := ¬ (c = 0x20 ∨ c = 0x09 ∨ c = 0x0A ∨ c = 0x0D)

instance (c : Nat) : Decidable (NotWs c) := by unfold NotWs; infer_instance

/-- The JSON value the text of a `RequestContext` stands for. -/
def contextJSON (c : RequestContext) : JSON :=
  JSON.obj [(lit "function_name", JSON.str (coerceUTF8 c.FunctionName)),
    (lit "invoked_function_arn", JSON.str (coerceUTF8 c.InvokedFunctionARN)),
    (lit "log_group_name", JSON.str (coerceUTF8 c.LogGroupName)),
    (lit "log_stream_name", JSON.str (coerceUTF8 c.LogStreamName))]

/-- The JSON value the text of a `LogsEvent` stands for. -/
def eventJSON (e : LogsEvent) : JSON :=
  JSON.obj [(lit "id", JSON.str (coerceUTF8 e.ID)),
    (lit "message", JSON.str (coerceUTF8 e.Message)),
    (lit "timestamp", JSON.num e.Timestamp)]

/-- The JSON value the text of a `LogsEntry` stands for. -/
def entryJSON (e : LogsEntry) : JSON :=
  JSON.obj [(lit "logEvents", JSON.arr (e.LogEvents.map eventJSON)),
    (lit "logGroup", JSON.str (coerceUTF8 e.LogGroup)),
    (lit "logStream", JSON.str (coerceUTF8 e.LogStream)),
    (lit "messageType", JSON.str (coerceUTF8 e.MessageType)),
    (lit "owner", JSON.str (coerceUTF8 e.Owner))]

/-- The JSON value the text of a `RequestData` stands for: `entry` is a string. -/
def dataJSON (d : RequestData) : JSON :=
  JSON.obj [(lit "context", contextJSON d.Context), (lit "entry", JSON.str (coerceUTF8 d.Entry))]

/-- A text that `coerceUTF8` leaves as it is in front of any other text: valid UTF-8. -/
def Stable (x : Bytes) : Prop := ∀ t : Bytes, coerceUTF8 (x ++ t) = x ++ coerceUTF8 t

/-! ## Reading a request back -/

/-- The bytes `BuildRequest` hands to the compressor: the text of the request data with
the context and, as a string, the text of the log entry. -/
def uncompressedBody {U : Type} (env : Env U) (payload : Bytes) (ev : InvocationEvent)
    (functionName : Bytes) : Bytes :=
  marshalRequestData
    { Context := buildContext ev functionName,
      Entry := marshalLogsEntry (buildLogEntry env payload functionName) }

/-- The lossless codec property of the spec: decompressing what the compressor returned
gives the compressed bytes back. -/
def Lossless (compress : Bytes → Except GoError Bytes) (decompress : Bytes → Option Bytes) :
    Prop :=
  ∀ b c, compress b = .ok c → decompress c = some b

/-- The request body decompressed and parsed as JSON. -/
def decodeBody (decompress : Bytes → Option Bytes) (body : Bytes) : Option JSON :=
  (decompress body).bind parseJSON

/-- The string `context.<name>` of a decoded body. -/
def contextField (doc : JSON) (name : String) : Option Bytes :=
  ((doc.get (lit "context")).bind (JSON.get (lit name))).bind JSON.asString

/-- The string `entry` of a decoded body. -/
def entryText (doc : JSON) : Option Bytes :=
  (doc.get (lit "entry")).bind JSON.asString

/-- The string `entry` of a decoded body, parsed as JSON. -/
def entryDoc (doc : JSON) : Option JSON :=
  (entryText doc).bind parseJSON

/-- The string member `<name>` of a JSON object. -/
def stringField (doc : JSON) (name : String) : Option Bytes :=
  (doc.get (lit name)).bind JSON.asString

/-- The list `logEvents` of a parsed entry. -/
def logEventsOf (entry : JSON) : Option (List JSON) :=
  (entry.get (lit "logEvents")).bind JSON.asArray

/-- The headers `BuildRequest` sets. -/
def requestHeader (userAgent licenseKey : Bytes) : Header :=
  [(lit "Content-Encoding", [lit "gzip"]), (lit "Content-Type", [lit "application/json"]),
   (lit "User-Agent", [userAgent]), (lit "X-License-Key", [licenseKey])]

/-! ## Sample calls -/

/-- A sample compressor for the examples: a two-byte magic number in front of the data. -/
def sampleCompress (b : Bytes) : Except GoError Bytes := .ok (0x1F :: 0x8B :: b)

/-- The decompressor of `sampleCompress`. -/
def sampleDecompress : Bytes → Option Bytes
  | b0 :: b1 :: rest => if b0 = 0x1F ∧ b1 = 0x8B then some rest else none
  | _ => none

/-- A sample environment: a fixed identifier and time, `sampleCompress`, and a URL parser
that accepts every text. -/
def sampleEnv : Env Bytes :=
  { uuid := lit "0b5cd1f2-6c7c-4a0e-9d3b-2f1f6f0a8e11", timestamp := 1600000000123,
    compress := sampleCompress, parseURL := fun u => .ok u }

/-- A sample environment whose compressor fails. -/
def failingEnv : Env Bytes :=
  { uuid := lit "0b5cd1f2-6c7c-4a0e-9d3b-2f1f6f0a8e11", timestamp := 1600000000123,
    compress := fun _ => .error ⟨lit "short write"⟩, parseURL := fun u => .ok u }

/-- A sample invocation event. -/
def sampleEvent : InvocationEvent :=
  ⟨lit "arn:aws:lambda:us-east-1:123456789012:function:my-func"⟩

/-- The request `BuildRequest` returns in `sampleEnv` for a payload and a function name,
with the license key `key`, the URL `https://example.com/v1` and the user agent `ua`. -/
def sampleRequest (payload functionName : Bytes) : Request Bytes :=
  { Method := lit "POST", URL := lit "https://example.com/v1",
    Header := requestHeader (lit "ua") (lit "key"),
    Body := 0x1F :: 0x8B :: uncompressedBody sampleEnv payload sampleEvent functionName,
    ContentLength := (uncompressedBody sampleEnv payload sampleEvent functionName).length + 2 }

/-! ## Lemmas -/

theorem acceptLo_ge (b0 : Nat) : 0x80 ≤ acceptLo b0 := by
  unfold acceptLo; split_ifs <;> omega

theorem acceptHi_le (b0 : Nat) : acceptHi b0 ≤ 0xBF := by
  unfold acceptHi; split_ifs <;> omega

theorem decodeRune_ascii (b : Nat) (rest : Bytes) (h : b < 0x80) :
    decodeRune (b :: rest) = (b, 1) := by
  simp [decodeRune, h]

theorem decodeRune_two (b0 b1 : Nat) (t : Bytes) (h : V2 b0 b1) :
    decodeRune (b0 :: b1 :: t) = ((b0 % 32) * 64 + b1 % 64, 2) := by
  obtain ⟨h1, h2, h3, h4⟩ := h
  have w : leadWidth b0 = 2 := by unfold leadWidth; split_ifs <;> omega
  have lo : acceptLo b0 = 0x80 := by unfold acceptLo; split_ifs <;> omega
  have hi : acceptHi b0 = 0xBF := by unfold acceptHi; split_ifs <;> omega
  rw [decodeRune, if_neg (by omega), if_neg (by omega), w, lo, hi]
  simp only [List.length_cons, List.getD_cons_zero]
  rw [if_neg (by omega), if_neg (by omega), if_pos (by omega)]

theorem decodeRune_three (b0 b1 b2 : Nat) (t : Bytes) (h : V3 b0 b1 b2) :
    decodeRune (b0 :: b1 :: b2 :: t) = ((b0 % 16) * 4096 + (b1 % 64) * 64 + b2 % 64, 3) := by
  obtain ⟨h1, h2, h3, h4, h5, h6⟩ := h
  have w : leadWidth b0 = 3 := by unfold leadWidth; split_ifs <;> omega
  rw [decodeRune, if_neg (by omega), if_neg (by omega), w]
  simp only [List.length_cons, List.getD_cons_zero, List.getD_cons_succ]
  rw [if_neg (by omega), if_neg (by omega), if_neg (by omega), if_neg (by omega),
    if_pos (by omega)]

theorem decodeRune_four (b0 b1 b2 b3 : Nat) (t : Bytes) (h : V4 b0 b1 b2 b3) :
    decodeRune (b0 :: b1 :: b2 :: b3 :: t) =
      ((b0 % 8) * 262144 + (b1 % 64) * 4096 + (b2 % 64) * 64 + b3 % 64, 4) := by
  obtain ⟨h1, h2, h3, h4, h5, h6, h7, h8⟩ := h
  have w : leadWidth b0 = 4 := by unfold leadWidth; split_ifs <;> omega
  rw [decodeRune, if_neg (by omega), if_neg (by omega), w]
  simp only [List.length_cons, List.getD_cons_zero, List.getD_cons_succ]
  rw [if_neg (by omega), if_neg (by omega), if_neg (by omega), if_neg (by omega),
    if_neg (by omega), if_neg (by omega)]

theorem decodeRune_cases (b : Nat) (rest : Bytes) (h : 0x80 ≤ b) :
    decodeRune (b :: rest) = (RuneError, 1) ∨
    (∃ b1 t, rest = b1 :: t ∧ V2 b b1) ∨
    (∃ b1 b2 t, rest = b1 :: b2 :: t ∧ V3 b b1 b2) ∨
    (∃ b1 b2 b3 t, rest = b1 :: b2 :: b3 :: t ∧ V4 b b1 b2 b3) := by
  rw [decodeRune, if_neg (by omega)]
  by_cases e2 : b < 0xC2 ∨ 0xF4 < b
  · left; rw [if_pos e2]
  rw [if_neg e2]
  by_cases e3 : rest.length + 1 < leadWidth b
  · left; rw [if_pos e3]
  rw [if_neg e3]
  have hlo := acceptLo_ge b
  have hhi := acceptHi_le b
  rcases rest with _ | ⟨b1, r1⟩
  · exfalso; unfold leadWidth at e3; simp only [List.length_nil] at e3; split_ifs at e3 <;> omega
  simp only [List.getD_cons_zero, List.getD_cons_succ]
  by_cases e4 : b1 < acceptLo b ∨ acceptHi b < b1
  · left; rw [if_pos e4]
  rw [if_neg e4]
  by_cases w2 : leadWidth b ≤ 2
  · right; left
    refine ⟨b1, r1, rfl, ?_⟩
    unfold leadWidth at w2; unfold V2
    split_ifs at w2 <;> omega
  rw [if_neg w2]
  rcases r1 with _ | ⟨b2, r2⟩
  · exfalso; simp only [List.length_cons, List.length_nil] at e3; omega
  simp only [List.getD_cons_zero, List.getD_cons_succ]
  by_cases e5 : b2 < 0x80 ∨ 0xBF < b2
  · left; rw [if_pos e5]
  rw [if_neg e5]
  by_cases w3 : leadWidth b ≤ 3
  · right; right; left
    refine ⟨b1, b2, r2, rfl, ?_⟩
    unfold leadWidth at w2 w3; unfold V3
    split_ifs at w2 w3 <;> omega
  rw [if_neg w3]
  rcases r2 with _ | ⟨b3, r3⟩
  · exfalso; simp only [List.length_cons, List.length_nil] at e3
    unfold leadWidth at e3 w3; split_ifs at e3 w3 <;> omega
  simp only [List.getD_cons_zero, List.getD_cons_succ]
  by_cases e6 : b3 < 0x80 ∨ 0xBF < b3
  · left; rw [if_pos e6]
  right; right; right
  refine ⟨b1, b2, b3, r3, rfl, ?_⟩
  unfold leadWidth at w3; unfold V4
  split_ifs at w3 <;> omega

theorem decodeRune_size_pos (b : Nat) (rest : Bytes) : 1 ≤ (decodeRune (b :: rest)).2 := by
  by_cases h : b < 0x80
  · rw [decodeRune_ascii b rest h]
  · rcases decodeRune_cases b rest (by omega) with e | ⟨b1, t, rfl, v⟩ | ⟨b1, b2, t, rfl, v⟩ |
      ⟨b1, b2, b3, t, rfl, v⟩
    · rw [e]
    · rw [decodeRune_two _ _ _ v]; simp
    · rw [decodeRune_three _ _ _ _ v]; simp
    · rw [decodeRune_four _ _ _ _ _ v]; simp

theorem length_drop_rune (b : Nat) (rest : Bytes) :
    ((b :: rest).drop (decodeRune (b :: rest)).2).length ≤ rest.length := by
  have := decodeRune_size_pos b rest
  simp only [List.length_drop, List.length_cons]
  omega

theorem appendStringAux_fuel (f : Nat) : ∀ s : Bytes, s.length ≤ f →
    appendStringAux f s = appendStringAux s.length s := by
  induction f using Nat.strong_induction_on with
  | _ f ih =>
    intro s hs
    rcases s with _ | ⟨b, rest⟩
    · cases f <;> rfl
    · obtain ⟨g, rfl⟩ : ∃ g, f = g + 1 := ⟨f - 1, by simp only [List.length_cons] at hs; omega⟩
      simp only [List.length_cons] at hs
      have hd := length_drop_rune b rest
      have h1 : appendStringAux g rest = appendStringAux rest.length rest :=
        ih g (by omega) rest (by omega)
      have h2 : appendStringAux g ((b :: rest).drop (decodeRune (b :: rest)).2) =
          appendStringAux rest.length ((b :: rest).drop (decodeRune (b :: rest)).2) := by
        rw [ih g (by omega) _ (by omega), ih rest.length (by omega) _ hd]
      simp only [List.length_cons, appendStringAux, h1, h2]

theorem coerceUTF8Aux_fuel (f : Nat) : ∀ s : Bytes, s.length ≤ f →
    coerceUTF8Aux f s = coerceUTF8Aux s.length s := by
  induction f using Nat.strong_induction_on with
  | _ f ih =>
    intro s hs
    rcases s with _ | ⟨b, rest⟩
    · cases f <;> rfl
    · obtain ⟨g, rfl⟩ : ∃ g, f = g + 1 := ⟨f - 1, by simp only [List.length_cons] at hs; omega⟩
      simp only [List.length_cons] at hs
      have hd := length_drop_rune b rest
      have h1 : coerceUTF8Aux g rest = coerceUTF8Aux rest.length rest :=
        ih g (by omega) rest (by omega)
      have h2 : coerceUTF8Aux g ((b :: rest).drop (decodeRune (b :: rest)).2) =
          coerceUTF8Aux rest.length ((b :: rest).drop (decodeRune (b :: rest)).2) := by
        rw [ih g (by omega) _ (by omega), ih rest.length (by omega) _ hd]
      simp only [List.length_cons, coerceUTF8Aux, h1, h2]

theorem validUTF8Aux_fuel (f : Nat) : ∀ s : Bytes, s.length ≤ f →
    validUTF8Aux f s = validUTF8Aux s.length s := by
  induction f using Nat.strong_induction_on with
  | _ f ih =>
    intro s hs
    rcases s with _ | ⟨b, rest⟩
    · cases f <;> rfl
    · obtain ⟨g, rfl⟩ : ∃ g, f = g + 1 := ⟨f - 1, by simp only [List.length_cons] at hs; omega⟩
      simp only [List.length_cons] at hs
      have hd := length_drop_rune b rest
      have h2 : validUTF8Aux g ((b :: rest).drop (decodeRune (b :: rest)).2) =
          validUTF8Aux rest.length ((b :: rest).drop (decodeRune (b :: rest)).2) := by
        rw [ih g (by omega) _ (by omega), ih rest.length (by omega) _ hd]
      simp only [List.length_cons, validUTF8Aux, h2]

/-! ### Unfolding equations of `escapeString` -/

theorem escapeString_nil : escapeString [] = [] := rfl

theorem escapeString_rune (b : Nat) (rest : Bytes) (h : 0x80 ≤ b) :
    escapeString (b :: rest) =
      if (decodeRune (b :: rest)).1 = RuneError ∧ (decodeRune (b :: rest)).2 = 1 then
        lit "\\ufffd" ++ escapeString rest
      else if (decodeRune (b :: rest)).1 = 0x2028 ∨ (decodeRune (b :: rest)).1 = 0x2029 then
        lit "\\u202" ++ [hexDigit ((decodeRune (b :: rest)).1 % 16)] ++
          escapeString ((b :: rest).drop (decodeRune (b :: rest)).2)
      else
        (b :: rest).take (decodeRune (b :: rest)).2 ++
          escapeString ((b :: rest).drop (decodeRune (b :: rest)).2) := by
  have hd := length_drop_rune b rest
  simp only [escapeString, List.length_cons, appendStringAux]
  rw [if_neg (by omega), appendStringAux_fuel rest.length _ hd]

theorem escapeString_ascii (b : Nat) (rest : Bytes) (h : b < 0x80) :
    escapeString (b :: rest) =
      (if htmlSafe b then [b] else escapeAscii b) ++ escapeString rest := by
  simp only [escapeString, List.length_cons, appendStringAux]
  rw [if_pos h]

theorem escapeString_invalid (b : Nat) (rest : Bytes) (h : 0x80 ≤ b)
    (e : decodeRune (b :: rest) = (RuneError, 1)) :
    escapeString (b :: rest) = lit "\\ufffd" ++ escapeString rest := by
  rw [escapeString_rune b rest h, e]; simp

theorem escapeString_two (b0 b1 : Nat) (t : Bytes) (v : V2 b0 b1) :
    escapeString (b0 :: b1 :: t) = [b0, b1] ++ escapeString t := by
  have h : 0x80 ≤ b0 := by unfold V2 at v; omega
  rw [escapeString_rune b0 _ h, decodeRune_two _ _ _ v]
  unfold V2 at v
  rw [if_neg (by simp), if_neg (by simp only [RuneError]; omega)]
  rfl

theorem escapeString_three (b0 b1 b2 : Nat) (t : Bytes) (v : V3 b0 b1 b2) :
    escapeString (b0 :: b1 :: b2 :: t) =
      if b0 = 0xE2 ∧ b1 = 0x80 ∧ (b2 = 0xA8 ∨ b2 = 0xA9) then
        lit "\\u202" ++ [hexDigit (b2 % 16)] ++ escapeString t
      else [b0, b1, b2] ++ escapeString t := by
  have h : 0x80 ≤ b0 := by unfold V3 at v; omega
  rw [escapeString_rune b0 _ h, decodeRune_three _ _ _ _ v]
  have hlo := acceptLo_ge b0
  have hhi := acceptHi_le b0
  unfold V3 at v
  rw [if_neg (by simp)]
  by_cases c : b0 = 0xE2 ∧ b1 = 0x80 ∧ (b2 = 0xA8 ∨ b2 = 0xA9)
  · rw [if_pos c, if_pos (by simp only; omega)]
    have : (b0 % 16 * 4096 + b1 % 64 * 64 + b2 % 64) % 16 = b2 % 16 := by omega
    simp only [this]; rfl
  · rw [if_neg c, if_neg (by simp only; omega)]
    rfl

theorem escapeString_four (b0 b1 b2 b3 : Nat) (t : Bytes) (v : V4 b0 b1 b2 b3) :
    escapeString (b0 :: b1 :: b2 :: b3 :: t) = [b0, b1, b2, b3] ++ escapeString t := by
  have h : 0x80 ≤ b0 := by unfold V4 at v; omega
  rw [escapeString_rune b0 _ h, decodeRune_four _ _ _ _ _ v]
  have hlo : 0x90 ≤ b1 ∨ 0xF1 ≤ b0 := by
    unfold V4 acceptLo at v; obtain ⟨v1, v2, v3, _⟩ := v; split_ifs at v3 <;> omega
  have hlo2 := acceptLo_ge b0
  have hhi := acceptHi_le b0
  unfold V4 at v
  rw [if_neg (by simp), if_neg (by simp only; omega)]
  rfl

/-! ### Unfolding equations of `coerceUTF8` and `validUTF8` -/

theorem coerceUTF8_nil : coerceUTF8 [] = [] := rfl

theorem coerceUTF8_cons (b : Nat) (rest : Bytes) :
    coerceUTF8 (b :: rest) =
      if (decodeRune (b :: rest)).1 = RuneError ∧ (decodeRune (b :: rest)).2 = 1 then
        [0xEF, 0xBF, 0xBD] ++ coerceUTF8 rest
      else
        (b :: rest).take (decodeRune (b :: rest)).2 ++
          coerceUTF8 ((b :: rest).drop (decodeRune (b :: rest)).2) := by
  have hd := length_drop_rune b rest
  simp only [coerceUTF8, List.length_cons, coerceUTF8Aux]
  rw [coerceUTF8Aux_fuel rest.length _ hd]

theorem coerceUTF8_ascii (b : Nat) (rest : Bytes) (h : b < 0x80) :
    coerceUTF8 (b :: rest) = b :: coerceUTF8 rest := by
  rw [coerceUTF8_cons, decodeRune_ascii b rest h]
  rw [if_neg (by simp only [RuneError]; omega)]
  rfl

theorem coerceUTF8_invalid (b : Nat) (rest : Bytes)
    (e : decodeRune (b :: rest) = (RuneError, 1)) :
    coerceUTF8 (b :: rest) = [0xEF, 0xBF, 0xBD] ++ coerceUTF8 rest := by
  rw [coerceUTF8_cons, e]; simp

theorem coerceUTF8_two (b0 b1 : Nat) (t : Bytes) (v : V2 b0 b1) :
    coerceUTF8 (b0 :: b1 :: t) = [b0, b1] ++ coerceUTF8 t := by
  rw [coerceUTF8_cons, decodeRune_two _ _ _ v, if_neg (by simp)]
  rfl

theorem coerceUTF8_three (b0 b1 b2 : Nat) (t : Bytes) (v : V3 b0 b1 b2) :
    coerceUTF8 (b0 :: b1 :: b2 :: t) = [b0, b1, b2] ++ coerceUTF8 t := by
  rw [coerceUTF8_cons, decodeRune_three _ _ _ _ v, if_neg (by simp)]
  rfl

theorem coerceUTF8_four (b0 b1 b2 b3 : Nat) (t : Bytes) (v : V4 b0 b1 b2 b3) :
    coerceUTF8 (b0 :: b1 :: b2 :: b3 :: t) = [b0, b1, b2, b3] ++ coerceUTF8 t := by
  rw [coerceUTF8_cons, decodeRune_four _ _ _ _ _ v, if_neg (by simp)]
  rfl

theorem validUTF8_cons (b : Nat) (rest : Bytes) :
    validUTF8 (b :: rest) =
      if (decodeRune (b :: rest)).1 = RuneError ∧ (decodeRune (b :: rest)).2 = 1 then false
      else validUTF8 ((b :: rest).drop (decodeRune (b :: rest)).2) := by
  have hd := length_drop_rune b rest
  simp only [validUTF8, List.length_cons, validUTF8Aux]
  rw [validUTF8Aux_fuel rest.length _ hd]

/-- A valid UTF-8 string is written as it is. -/
theorem coerceUTF8_of_valid (n : Nat) : ∀ s : Bytes, s.length ≤ n → validUTF8 s = true →
    coerceUTF8 s = s := by
  induction n with
  | zero =>
    intro s hs _
    rcases s with _ | ⟨b, rest⟩
    · rfl
    · simp at hs
  | succ n ih =>
    intro s hs hv
    rcases s with _ | ⟨b, rest⟩
    · rfl
    simp only [List.length_cons] at hs
    have hd := length_drop_rune b rest
    rw [validUTF8_cons] at hv
    rw [coerceUTF8_cons]
    by_cases c : (decodeRune (b :: rest)).1 = RuneError ∧ (decodeRune (b :: rest)).2 = 1
    · rw [if_pos c] at hv; exact absurd hv (by simp)
    · rw [if_neg c] at hv
      rw [if_neg c, ih _ (by omega) hv, List.take_append_drop]

/-! ### Reading a string back -/

theorem hexVal_hexDigit (n : Nat) (h : n < 16) : hexVal (hexDigit n) = some n := by
  unfold hexVal hexDigit
  split_ifs <;> first | omega | (congr 1; omega)

theorem parseStringBody_quote (t : Bytes) : parseStringBody none (0x22 :: t) = some ([], t) := by
  rw [parseStringBody.eq_def]
  simp [flushPending]

theorem parseStringBody_plain (b : Nat) (r : Bytes) (h1 : 0x20 ≤ b) (h2 : b ≠ 0x22)
    (h3 : b ≠ 0x5C) :
    parseStringBody none (b :: r) = (parseStringBody none r).map fun p => (b :: p.1, p.2) := by
  rw [parseStringBody.eq_def]
  simp only [if_neg h2, if_neg h3, if_neg (show ¬ b < 0x20 by omega), flushPending,
    List.nil_append]

theorem parseStringBody_simple (e c : Nat) (r : Bytes) (h1 : e ≠ 0x75)
    (h2 : simpleEscape e = some c) :
    parseStringBody none (0x5C :: e :: r) =
      (parseStringBody none r).map fun p => (c :: p.1, p.2) := by
  rw [parseStringBody.eq_def]
  simp only [if_neg h1, h2, flushPending, List.nil_append, if_neg (show ¬ (0x5C = 0x22) by decide),
    if_true]

theorem parseStringBody_u (h1 h2 h3 h4 v : Nat) (r : Bytes) (hv : hex4 h1 h2 h3 h4 = some v)
    (hs : ¬ (0xD800 ≤ v ∧ v ≤ 0xDBFF)) :
    parseStringBody none (0x5C :: 0x75 :: h1 :: h2 :: h3 :: h4 :: r) =
      (parseStringBody none r).map fun p => (encodeRune v ++ p.1, p.2) := by
  rw [parseStringBody.eq_def]
  simp only [if_neg (show ¬ (0x5C = 0x22) by decide), if_true, hv, if_neg hs]

theorem parseStringBody_escapeAscii (b : Nat) (r : Bytes) (h : b < 0x80)
    (hs : htmlSafe b = false) :
    parseStringBody none (escapeAscii b ++ r) =
      (parseStringBody none r).map fun p => (b :: p.1, p.2) := by
  unfold escapeAscii
  split_ifs with c1 c2 c3 c4
  · rcases c1 with rfl | rfl
    · exact parseStringBody_simple _ _ _ (by decide) (by decide)
    · exact parseStringBody_simple _ _ _ (by decide) (by decide)
  · subst c2; exact parseStringBody_simple _ _ _ (by decide) (by decide)
  · subst c3; exact parseStringBody_simple _ _ _ (by decide) (by decide)
  · subst c4; exact parseStringBody_simple _ _ _ (by decide) (by decide)
  · have hv : hex4 0x30 0x30 (hexDigit (b / 16)) (hexDigit (b % 16)) = some b := by
      unfold hex4
      rw [hexVal_hexDigit _ (by omega), hexVal_hexDigit _ (by omega)]
      simp only [hexVal]
      simp only [Nat.reduceLeDiff, and_self, if_true, Nat.sub_self, Nat.reduceMul, Nat.zero_add,
        Nat.zero_mul, Option.some.injEq]
      omega
    rw [show [0x5C, 0x75, 0x30, 0x30, hexDigit (b / 16), hexDigit (b % 16)] ++ r =
      0x5C :: 0x75 :: 0x30 :: 0x30 :: hexDigit (b / 16) :: hexDigit (b % 16) :: r from rfl]
    rw [parseStringBody_u _ _ _ _ b r hv (by omega)]
    have : encodeRune b = [b] := by unfold encodeRune; rw [if_pos h]
    simp only [this, List.singleton_append]

theorem parseStringBody_ufffd (r : Bytes) :
    parseStringBody none (lit "\\ufffd" ++ r) =
      (parseStringBody none r).map fun p => ([0xEF, 0xBF, 0xBD] ++ p.1, p.2) := by
  rw [show lit "\\ufffd" ++ r = 0x5C :: 0x75 :: 0x66 :: 0x66 :: 0x66 :: 0x64 :: r from rfl]
  rw [parseStringBody_u _ _ _ _ 0xFFFD r (by decide) (by decide)]
  rfl

theorem parseStringBody_u202 (d : Nat) (r : Bytes) (h : d = 8 ∨ d = 9) :
    parseStringBody none (lit "\\u202" ++ [hexDigit d] ++ r) =
      (parseStringBody none r).map fun p => ([0xE2, 0x80, 0xA0 + d] ++ p.1, p.2) := by
  rw [show lit "\\u202" ++ [hexDigit d] ++ r =
    0x5C :: 0x75 :: 0x32 :: 0x30 :: 0x32 :: hexDigit d :: r from rfl]
  rcases h with rfl | rfl
  · rw [parseStringBody_u _ _ _ _ 0x2028 r (by decide) (by decide)]; rfl
  · rw [parseStringBody_u _ _ _ _ 0x2029 r (by decide) (by decide)]; rfl

/-- Reading back the string `encoding/json` wrote for `s` gives `coerceUTF8 s`. -/
theorem parseStringBody_escapeString (n : Nat) : ∀ (s t : Bytes), s.length ≤ n →
    parseStringBody none (escapeString s ++ 0x22 :: t) = some (coerceUTF8 s, t) := by
  induction n using Nat.strong_induction_on with
  | _ n ih =>
    intro s t hs
    rcases s with _ | ⟨b, rest⟩
    · exact parseStringBody_quote t
    simp only [List.length_cons] at hs
    by_cases hb : b < 0x80
    · rw [escapeString_ascii b rest hb, coerceUTF8_ascii b rest hb]
      have ihr := ih rest.length (by omega) rest t (le_refl _)
      by_cases hsafe : htmlSafe b = true
      · rw [if_pos hsafe]
        have hp : 0x20 ≤ b ∧ b ≠ 0x22 ∧ b ≠ 0x5C := by
          simp only [htmlSafe, Bool.and_eq_true, decide_eq_true_eq, bne_iff_ne, ne_eq] at hsafe
          omega
        rw [List.singleton_append, List.cons_append,
          parseStringBody_plain b _ hp.1 hp.2.1 hp.2.2, ihr]
        rfl
      · rw [if_neg hsafe, List.append_assoc,
          parseStringBody_escapeAscii b _ hb (by simpa using hsafe), ihr]
        rfl
    · have hb2 : 0x80 ≤ b := by omega
      rcases decodeRune_cases b rest hb2 with e | ⟨b1, r, rfl, v⟩ | ⟨b1, b2, r, rfl, v⟩ |
        ⟨b1, b2, b3, r, rfl, v⟩
      · rw [escapeString_invalid b rest hb2 e, coerceUTF8_invalid b rest e, List.append_assoc,
          parseStringBody_ufffd, ih rest.length (by omega) rest t (le_refl _)]
        rfl
      · rw [escapeString_two _ _ _ v, coerceUTF8_two _ _ _ v]
        simp only [List.length_cons] at hs
        unfold V2 at v
        simp only [List.cons_append, List.nil_append]
        rw [parseStringBody_plain b _ (by omega) (by omega) (by omega),
          parseStringBody_plain b1 _ (by omega) (by omega) (by omega),
          ih r.length (by omega) r t (le_refl _)]
        rfl
      · rw [escapeString_three _ _ _ _ v, coerceUTF8_three _ _ _ _ v]
        simp only [List.length_cons] at hs
        have hlo := acceptLo_ge b
        have hhi := acceptHi_le b
        unfold V3 at v
        by_cases c : b = 0xE2 ∧ b1 = 0x80 ∧ (b2 = 0xA8 ∨ b2 = 0xA9)
        · rw [if_pos c]
          obtain ⟨rfl, rfl, c3⟩ := c
          have h16 : b2 % 16 = 8 ∨ b2 % 16 = 9 := by omega
          rw [List.append_assoc, List.append_assoc, ← List.append_assoc (lit "\\u202"),
            parseStringBody_u202 _ _ h16, ih r.length (by omega) r t (le_refl _)]
          have : 0xA0 + b2 % 16 = b2 := by omega
          simp only [this]
          rfl
        · rw [if_neg c]
          simp only [List.cons_append, List.nil_append]
          rw [parseStringBody_plain b _ (by omega) (by omega) (by omega),
            parseStringBody_plain b1 _ (by omega) (by omega) (by omega),
            parseStringBody_plain b2 _ (by omega) (by omega) (by omega),
            ih r.length (by omega) r t (le_refl _)]
          rfl
      · rw [escapeString_four _ _ _ _ _ v, coerceUTF8_four _ _ _ _ _ v]
        simp only [List.length_cons] at hs
        have hlo := acceptLo_ge b
        have hhi := acceptHi_le b
        unfold V4 at v
        simp only [List.cons_append, List.nil_append]
        rw [parseStringBody_plain b _ (by omega) (by omega) (by omega),
          parseStringBody_plain b1 _ (by omega) (by omega) (by omega),
          parseStringBody_plain b2 _ (by omega) (by omega) (by omega),
          parseStringBody_plain b3 _ (by omega) (by omega) (by omega),
          ih r.length (by omega) r t (le_refl _)]
        rfl

/-! ### Integers -/

theorem formatBits_eq (f : Nat) : ∀ (n : Nat) (acc : Bytes), n < f →
    formatBits f n acc = formatNat n ++ acc := by
  induction f using Nat.strong_induction_on with
  | _ f ih =>
    intro n acc hn
    obtain ⟨g, rfl⟩ : ∃ g, f = g + 1 := ⟨f - 1, by omega⟩
    by_cases h : n < 10
    · simp only [formatNat, formatBits, if_pos h]
      rfl
    · have hdiv : n / 10 < n := by omega
      simp only [formatNat, formatBits, if_neg h]
      rw [ih g (by omega) _ _ (by omega), ih n (by omega) _ _ hdiv]
      simp

theorem formatNat_small (n : Nat) (h : n < 10) : formatNat n = [0x30 + n] := by
  simp only [formatNat, formatBits, if_pos h]

theorem formatNat_big (n : Nat) (h : ¬ n < 10) :
    formatNat n = formatNat (n / 10) ++ [0x30 + n % 10] := by
  have hdiv : n / 10 < n := by omega
  simp only [formatNat, formatBits, if_neg h]
  rw [formatBits_eq n _ _ hdiv]
  rfl

theorem formatNat_digits (n : Nat) : ∀ c ∈ formatNat n, isDigit c = true := by
  induction n using Nat.strong_induction_on with
  | _ n ih =>
    by_cases h : n < 10
    · rw [formatNat_small n h]
      intro c hc
      simp only [List.mem_singleton] at hc
      subst hc
      simp only [isDigit, Bool.and_eq_true, decide_eq_true_eq]
      omega
    · rw [formatNat_big n h]
      intro c hc
      rcases List.mem_append.1 hc with hc | hc
      · exact ih (n / 10) (by omega) c hc
      · simp only [List.mem_singleton] at hc
        subst hc
        simp only [isDigit, Bool.and_eq_true, decide_eq_true_eq]
        omega

theorem digitsVal_append (xs : Bytes) (d : Nat) :
    digitsVal (xs ++ [d]) = digitsVal xs * 10 + (d - 0x30) := by
  simp [digitsVal, List.foldl_append]

theorem digitsVal_formatNat (n : Nat) : digitsVal (formatNat n) = n := by
  induction n using Nat.strong_induction_on with
  | _ n ih =>
    by_cases h : n < 10
    · rw [formatNat_small n h]
      simp [digitsVal]
    · rw [formatNat_big n h, digitsVal_append, ih (n / 10) (by omega)]
      omega

theorem formatNat_head (n : Nat) :
    ∃ c r, formatNat n = c :: r ∧ isDigit c = true ∧ (c = 0x30 → r = []) := by
  induction n using Nat.strong_induction_on with
  | _ n ih =>
    by_cases h : n < 10
    · refine ⟨0x30 + n, [], formatNat_small n h, ?_, fun _ => rfl⟩
      simp only [isDigit, Bool.and_eq_true, decide_eq_true_eq]
      omega
    · obtain ⟨c, r, e, hd, hz⟩ := ih (n / 10) (by omega)
      refine ⟨c, r ++ [0x30 + n % 10], ?_, hd, ?_⟩
      · rw [formatNat_big n h, e]; rfl
      · intro hc
        exfalso
        have e2 := digitsVal_formatNat (n / 10)
        rw [e, hz hc, hc] at e2
        simp [digitsVal] at e2
        omega

theorem takeWhile_digits (ds t : Bytes) (h : ∀ c ∈ ds, isDigit c = true)
    (ht : ∀ c r, t = c :: r → isDigit c = false) :
    (ds ++ t).takeWhile isDigit = ds ∧ (ds ++ t).dropWhile isDigit = t := by
  induction ds with
  | nil =>
    rcases t with _ | ⟨c, r⟩
    · simp
    · simp [List.takeWhile, List.dropWhile, ht c r rfl]
  | cons d ds ih =>
    have hd := h d (List.mem_cons_self _ _)
    have := ih (fun c hc => h c (List.mem_cons_of_mem _ hc))
    simp [List.takeWhile, List.dropWhile, hd, this.1, this.2]

theorem parseNumber_formatNat (n : Nat) (t : Bytes) (ht : EndsNumber t) :
    parseNumber (formatNat n ++ t) = some (JSON.num (n : Int), t) := by
  obtain ⟨c, r, e, hd, hz⟩ := formatNat_head n
  have htw := takeWhile_digits (formatNat n) t (formatNat_digits n) (fun c r h => (ht c r h).1)
  have hneg : ¬ ((formatNat n ++ t).head? = some 0x2D) := by
    rw [e]; simp only [List.cons_append, List.head?_cons, Option.some.injEq]
    intro hc; rw [hc] at hd; simp [isDigit] at hd
  unfold parseNumber
  simp only [hneg, decide_False, Bool.false_eq_true, if_false, htw.1, htw.2]
  rw [if_neg (by rw [e]; simp)]
  rw [if_neg (by
    rw [e]; simp only [List.head?_cons, Option.some.injEq, List.length_cons]
    intro ⟨h1, h2⟩
    rw [hz h1] at h2; simp at h2)]
  rw [if_neg (by
    rcases t with _ | ⟨c, r⟩
    · simp
    · have := ht c r rfl
      simp only [List.head?_cons, Option.some.injEq]
      tauto)]
  rw [digitsVal_formatNat]

theorem parseNumber_formatInt (i : Int) (t : Bytes) (ht : EndsNumber t) :
    parseNumber (formatInt i ++ t) = some (JSON.num i, t) := by
  unfold formatInt
  by_cases h : i < 0
  · rw [if_pos h]
    obtain ⟨c, r, e, hd, hz⟩ := formatNat_head i.natAbs
    have htw := takeWhile_digits (formatNat i.natAbs) t (formatNat_digits _)
      (fun c r h => (ht c r h).1)
    unfold parseNumber
    simp only [List.cons_append, List.head?_cons, decide_True, if_true, List.tail_cons, htw.1,
      htw.2]
    rw [if_neg (by rw [e]; simp)]
    rw [if_neg (by
      rw [e]; simp only [List.head?_cons, Option.some.injEq, List.length_cons]
      intro ⟨h1, h2⟩
      rw [hz h1] at h2; simp at h2)]
    rw [if_neg (by
      rcases t with _ | ⟨c, r⟩
      · simp
      · have := ht c r rfl
        simp only [List.head?_cons, Option.some.injEq]
        tauto)]
    rw [digitsVal_formatNat]
    have e3 : -(i.natAbs : Int) = i := by omega
    rw [e3]
  · rw [if_neg h, parseNumber_formatNat _ _ ht]
    have e3 : (i.toNat : Int) = i := by omega
    rw [e3]

theorem formatInt_head (i : Int) :
    ∃ c r, formatInt i = c :: r ∧ (c = 0x2D ∨ isDigit c = true) := by
  unfold formatInt
  by_cases h : i < 0
  · rw [if_pos h]; exact ⟨_, _, rfl, Or.inl rfl⟩
  · rw [if_neg h]
    obtain ⟨c, r, e, hd, _⟩ := formatNat_head i.toNat
    exact ⟨c, r, e, Or.inr hd⟩

theorem formatInt_ascii (i : Int) : ∀ c ∈ formatInt i, c < 0x80 := by
  have hn : ∀ n, ∀ c ∈ formatNat n, c < 0x80 := by
    intro n c hc
    have := formatNat_digits n c hc
    simp only [isDigit, Bool.and_eq_true, decide_eq_true_eq] at this
    omega
  unfold formatInt
  split_ifs
  · intro c hc
    rcases List.mem_cons.1 hc with rfl | hc
    · decide
    · exact hn _ c hc
  · exact hn _

/-! ### Reading a document back -/

theorem skipWs_cons (c : Nat) (r : Bytes) (h : NotWs c) : skipWs (c :: r) = c :: r := by
  unfold NotWs at h
  rw [skipWs, if_neg h]

theorem parseStringBody_key (k t : Bytes) (h : PlainKey k) :
    parseStringBody none (k ++ 0x22 :: t) = some (k, t) := by
  induction k with
  | nil => exact parseStringBody_quote t
  | cons b k ih =>
    have hb := h b (List.mem_cons_self _ _)
    rw [List.cons_append, parseStringBody_plain b _ hb.1 hb.2.1 hb.2.2,
      ih (fun c hc => h c (List.mem_cons_of_mem _ hc))]
    rfl

theorem parseMembers_comma (pv : Bytes → Option (JSON × Bytes)) (n : Nat) (name : String)
    (X Y : Bytes) (v : JSON) (hk : PlainKey (lit name)) (hv : pv X = some (v, 0x2C :: Y)) :
    parseMembers pv (n + 1) (fieldName name ++ X) =
      (parseMembers pv n Y).map fun p => ((lit name, v) :: p.1, p.2) := by
  rw [parseMembers.eq_def]
  have e : fieldName name ++ X = 0x22 :: (lit name ++ 0x22 :: 0x3A :: X) := by
    simp [fieldName]
  simp only [e, skipWs_cons 0x22 _ (by decide), if_true, parseStringBody_key _ _ hk,
    skipWs_cons 0x3A _ (by decide), hv, skipWs_cons 0x2C _ (by decide)]

theorem parseMembers_last (pv : Bytes → Option (JSON × Bytes)) (n : Nat) (name : String)
    (X Y : Bytes) (v : JSON) (hk : PlainKey (lit name)) (hv : pv X = some (v, 0x7D :: Y)) :
    parseMembers pv (n + 1) (fieldName name ++ X) = some ([(lit name, v)], Y) := by
  rw [parseMembers.eq_def]
  have e : fieldName name ++ X = 0x22 :: (lit name ++ 0x22 :: 0x3A :: X) := by
    simp [fieldName]
  simp only [e, skipWs_cons 0x22 _ (by decide), if_true, parseStringBody_key _ _ hk,
    skipWs_cons 0x3A _ (by decide), hv, skipWs_cons 0x7D _ (by decide),
    if_neg (show ¬ (0x7D = 0x2C) by decide)]

theorem parseElems_single (pv : Bytes → Option (JSON × Bytes)) (n : Nat) (X Y : Bytes)
    (v : JSON) (hv : pv X = some (v, 0x5D :: Y)) :
    parseElems pv (n + 1) X = some ([v], Y) := by
  rw [parseElems.eq_def]
  simp only [hv, skipWs_cons 0x5D _ (by decide), if_neg (show ¬ (0x5D = 0x2C) by decide),
    if_true]

theorem parseValue_string (n : Nat) (s t : Bytes) :
    parseValue (n + 1) (encodeString s ++ t) = some (JSON.str (coerceUTF8 s), t) := by
  rw [parseValue.eq_def]
  have e : encodeString s ++ t = 0x22 :: (escapeString s ++ 0x22 :: t) := by
    simp [encodeString]
  simp only [e, skipWs_cons 0x22 _ (by decide), if_true,
    parseStringBody_escapeString s.length s t (le_refl _), Option.map_some']

theorem parseValue_object (n : Nat) (name : String) (X : Bytes) :
    parseValue (n + 1) (0x7B :: (fieldName name ++ X)) =
      (parseMembers (parseValue n) n (fieldName name ++ X)).map fun p => (JSON.obj p.1, p.2) := by
  rw [parseValue.eq_def]
  have e : fieldName name ++ X = 0x22 :: (lit name ++ 0x22 :: 0x3A :: X) := by
    simp [fieldName]
  simp only [e, skipWs_cons 0x7B _ (by decide), skipWs_cons 0x22 _ (by decide),
    if_neg (show ¬ (0x7B = 0x22) by decide), if_true, if_neg (show ¬ (0x22 = 0x7D) by decide)]

theorem parseValue_array (n : Nat) (X : Bytes) :
    parseValue (n + 1) (0x5B :: 0x7B :: X) =
      (parseElems (parseValue n) n (0x7B :: X)).map fun p => (JSON.arr p.1, p.2) := by
  rw [parseValue.eq_def]
  simp only [skipWs_cons 0x5B _ (by decide), skipWs_cons 0x7B _ (by decide),
    if_neg (show ¬ (0x5B = 0x22) by decide), if_neg (show ¬ (0x5B = 0x7B) by decide), if_true,
    if_neg (show ¬ (0x7B = 0x5D) by decide)]

theorem parseValue_number (n : Nat) (i : Int) (t : Bytes) (ht : EndsNumber t) :
    parseValue (n + 1) (formatInt i ++ t) = some (JSON.num i, t) := by
  obtain ⟨c, r, e, hc⟩ := formatInt_head i
  have hc2 : NotWs c ∧ c ≠ 0x22 ∧ c ≠ 0x7B ∧ c ≠ 0x5B ∧ c ≠ 0x74 ∧ c ≠ 0x66 ∧ c ≠ 0x6E := by
    unfold NotWs
    rcases hc with rfl | hc
    · decide
    · simp only [isDigit, Bool.and_eq_true, decide_eq_true_eq] at hc
      omega
  have hp := parseNumber_formatInt i t ht
  rw [e] at hp
  rw [parseValue.eq_def, e]
  simp only [List.cons_append, skipWs_cons c _ hc2.1, if_neg hc2.2.1, if_neg hc2.2.2.1,
    if_neg hc2.2.2.2.1, if_neg hc2.2.2.2.2.1, if_neg hc2.2.2.2.2.2.1, if_neg hc2.2.2.2.2.2.2]
  exact hp

theorem parseMembers_comma_some (pv : Bytes → Option (JSON × Bytes)) (n : Nat) (name : String)
    (X Y Z : Bytes) (v : JSON) (kvs : List (Bytes × JSON)) (hk : PlainKey (lit name))
    (hv : pv X = some (v, 0x2C :: Y)) (hr : parseMembers pv n Y = some (kvs, Z)) :
    parseMembers pv (n + 1) (fieldName name ++ X) = some ((lit name, v) :: kvs, Z) := by
  rw [parseMembers_comma pv n name X Y v hk hv, hr]
  rfl

theorem parseValue_context (n : Nat) (c : RequestContext) (t : Bytes) :
    parseValue (n + 5) (marshalRequestContext c ++ t) = some (contextJSON c, t) := by
  have e : marshalRequestContext c ++ t =
      0x7B :: (fieldName "function_name" ++ (encodeString c.FunctionName ++ 0x2C ::
        (fieldName "invoked_function_arn" ++ (encodeString c.InvokedFunctionARN ++ 0x2C ::
        (fieldName "log_group_name" ++ (encodeString c.LogGroupName ++ 0x2C ::
        (fieldName "log_stream_name" ++ (encodeString c.LogStreamName ++ 0x7D :: t)))))))) := by
    simp only [marshalRequestContext, List.append_assoc, List.singleton_append, List.cons_append,
      List.nil_append]
  rw [e, parseValue_object (n + 4)]
  have h4 := parseMembers_last (parseValue (n + 4)) n "log_stream_name" _ t _ (by decide)
    (parseValue_string (n + 3) c.LogStreamName (0x7D :: t))
  have h3 := parseMembers_comma_some (parseValue (n + 4)) (n + 1) "log_group_name" _ _ _ _ _
    (by decide) (parseValue_string (n + 3) c.LogGroupName _) h4
  have h2 := parseMembers_comma_some (parseValue (n + 4)) (n + 2) "invoked_function_arn" _ _ _ _ _
    (by decide) (parseValue_string (n + 3) c.InvokedFunctionARN _) h3
  have h1 := parseMembers_comma_some (parseValue (n + 4)) (n + 3) "function_name" _ _ _ _ _
    (by decide) (parseValue_string (n + 3) c.FunctionName _) h2
  rw [h1]
  rfl

theorem parseValue_event (n : Nat) (ev : LogsEvent) (t : Bytes) :
    parseValue (n + 4) (marshalLogsEvent ev ++ t) = some (eventJSON ev, t) := by
  have e : marshalLogsEvent ev ++ t =
      0x7B :: (fieldName "id" ++ (encodeString ev.ID ++ 0x2C ::
        (fieldName "message" ++ (encodeString ev.Message ++ 0x2C ::
        (fieldName "timestamp" ++ (formatInt ev.Timestamp ++ 0x7D :: t)))))) := by
    simp only [marshalLogsEvent, List.append_assoc, List.singleton_append, List.cons_append,
      List.nil_append]
  rw [e, parseValue_object (n + 3)]
  have hend : EndsNumber (0x7D :: t) := by
    intro c r h
    cases h
    decide
  have h3 := parseMembers_last (parseValue (n + 3)) n "timestamp" _ t _ (by decide)
    (parseValue_number (n + 2) ev.Timestamp (0x7D :: t) hend)
  have h2 := parseMembers_comma_some (parseValue (n + 3)) (n + 1) "message" _ _ _ _ _
    (by decide) (parseValue_string (n + 2) ev.Message _) h3
  have h1 := parseMembers_comma_some (parseValue (n + 3)) (n + 2) "id" _ _ _ _ _
    (by decide) (parseValue_string (n + 2) ev.ID _) h2
  rw [h1]
  rfl

theorem parseValue_entry (n : Nat) (e : LogsEntry) (ev : LogsEvent) (t : Bytes)
    (h : e.LogEvents = [ev]) :
    parseValue (n + 6) (marshalLogsEntry e ++ t) = some (entryJSON e, t) := by
  have e1 : marshalLogsEntry e ++ t =
      0x7B :: (fieldName "logEvents" ++ (0x5B :: 0x7B :: ((marshalLogsEvent ev).tail ++ 0x5D ::
        0x2C :: (fieldName "logGroup" ++ (encodeString e.LogGroup ++ 0x2C ::
        (fieldName "logStream" ++ (encodeString e.LogStream ++ 0x2C ::
        (fieldName "messageType" ++ (encodeString e.MessageType ++ 0x2C ::
        (fieldName "owner" ++ (encodeString e.Owner ++ 0x7D :: t)))))))))))  := by
    simp only [marshalLogsEntry, marshalLogsEventSlice, marshalLogsEvents, marshalLogsEvent, h,
      List.append_assoc, List.singleton_append, List.cons_append, List.nil_append, List.tail_cons,
      if_neg (List.cons_ne_nil _ _)]
  have e2 : ∀ r : Bytes, 0x7B :: ((marshalLogsEvent ev).tail ++ r) = marshalLogsEvent ev ++ r := by
    intro r
    simp only [marshalLogsEvent, List.append_assoc, List.singleton_append, List.cons_append,
      List.tail_cons]
  rw [e1, parseValue_object (n + 5)]
  have h5 := parseMembers_last (parseValue (n + 5)) n "owner" _ t _ (by decide)
    (parseValue_string (n + 4) e.Owner (0x7D :: t))
  have h4 := parseMembers_comma_some (parseValue (n + 5)) (n + 1) "messageType" _ _ _ _ _
    (by decide) (parseValue_string (n + 4) e.MessageType _) h5
  have h3 := parseMembers_comma_some (parseValue (n + 5)) (n + 2) "logStream" _ _ _ _ _
    (by decide) (parseValue_string (n + 4) e.LogStream _) h4
  have h2 := parseMembers_comma_some (parseValue (n + 5)) (n + 3) "logGroup" _ _ _ _ _
    (by decide) (parseValue_string (n + 4) e.LogGroup _) h3
  have hel : ∀ r : Bytes, parseValue (n + 5) (0x5B :: 0x7B :: ((marshalLogsEvent ev).tail ++
      0x5D :: r)) = some (JSON.arr [eventJSON ev], r) := by
    intro r
    rw [parseValue_array (n + 4), parseElems_single (parseValue (n + 4)) (n + 3) _ r
      (eventJSON ev) (by rw [e2]; exact parseValue_event n ev _)]
    rfl
  have h1 := parseMembers_comma_some (parseValue (n + 5)) (n + 4) "logEvents" _ _ _ _ _
    (by decide) (hel _) h2
  rw [h1]
  simp only [entryJSON, h, List.map_cons, List.map_nil, Option.map_some']

theorem parseValue_data (n : Nat) (d : RequestData) (t : Bytes) :
    parseValue (n + 6) (marshalRequestData d ++ t) = some (dataJSON d, t) := by
  have e : marshalRequestData d ++ t =
      0x7B :: (fieldName "context" ++ (marshalRequestContext d.Context ++ 0x2C ::
        (fieldName "entry" ++ (encodeString d.Entry ++ 0x7D :: t)))) := by
    simp only [marshalRequestData, List.append_assoc, List.singleton_append, List.cons_append,
      List.nil_append]
  rw [e, parseValue_object (n + 5)]
  have h2 := parseMembers_last (parseValue (n + 5)) (n + 3) "entry" _ t _ (by decide)
    (parseValue_string (n + 4) d.Entry (0x7D :: t))
  have h1 := parseMembers_comma_some (parseValue (n + 5)) (n + 4) "context" _ _ _ _ _
    (by decide) (parseValue_context n d.Context _) h2
  rw [h1]
  rfl

theorem parseJSON_of_parseValue (x : Bytes) (v : JSON) (hlen : 5 ≤ x.length)
    (h : ∀ n t, parseValue (n + 6) (x ++ t) = some (v, t)) : parseJSON x = some v := by
  obtain ⟨n, hn⟩ : ∃ n, x.length + 1 = n + 6 := ⟨x.length - 5, by omega⟩
  have := h n []
  rw [List.append_nil] at this
  simp only [parseJSON, hn, this, skipWs, if_true]

/-- Parsing the text of a `RequestData` gives an object with the context and the entry
as a string. -/
theorem parseJSON_data (d : RequestData) : parseJSON (marshalRequestData d) = some (dataJSON d) := by
  apply parseJSON_of_parseValue _ _ _ (fun n t => parseValue_data n d t)
  have : (fieldName "context").length = 10 := rfl
  simp only [marshalRequestData, List.length_append, this]
  omega

/-- Parsing the text of a `LogsEntry` with one event gives the entry with that event. -/
theorem parseJSON_entry (e : LogsEntry) (ev : LogsEvent) (h : e.LogEvents = [ev]) :
    parseJSON (marshalLogsEntry e) = some (entryJSON e) := by
  apply parseJSON_of_parseValue _ _ _ (fun n t => parseValue_entry n e ev t h)
  have : (fieldName "logEvents").length = 12 := rfl
  simp only [marshalLogsEntry, List.length_append, this]
  omega

/-! ### The text of the entry is valid UTF-8 -/

theorem stable_nil : Stable [] := fun _ => rfl

theorem stable_append (x y : Bytes) (hx : Stable x) (hy : Stable y) : Stable (x ++ y) := by
  intro t
  rw [List.append_assoc, hx, hy, List.append_assoc]

theorem stable_ascii (a : Bytes) (h : ∀ b ∈ a, b < 0x80) : Stable a := by
  induction a with
  | nil => exact stable_nil
  | cons b a ih =>
    intro t
    rw [List.cons_append, coerceUTF8_ascii b _ (h b (List.mem_cons_self _ _)),
      ih (fun c hc => h c (List.mem_cons_of_mem _ hc)) t]
    rfl

theorem hexDigit_ascii (n : Nat) (h : n < 16) : hexDigit n < 0x80 := by
  unfold hexDigit; split_ifs <;> omega

theorem escapeAscii_ascii (b : Nat) (h : b < 0x80) : ∀ c ∈ escapeAscii b, c < 0x80 := by
  have h1 := hexDigit_ascii (b / 16) (by omega)
  have h2 := hexDigit_ascii (b % 16) (by omega)
  unfold escapeAscii
  split_ifs <;> simp <;> omega

theorem stable_escapeString (n : Nat) : ∀ s : Bytes, s.length ≤ n → Stable (escapeString s) := by
  induction n using Nat.strong_induction_on with
  | _ n ih =>
    intro s hs
    rcases s with _ | ⟨b, rest⟩
    · exact stable_nil
    simp only [List.length_cons] at hs
    by_cases hb : b < 0x80
    · rw [escapeString_ascii b rest hb]
      refine stable_append _ _ (stable_ascii _ ?_) (ih rest.length (by omega) rest (le_refl _))
      split_ifs
      · intro c hc; simp only [List.mem_singleton] at hc; omega
      · exact escapeAscii_ascii b hb
    · have hb2 : 0x80 ≤ b := by omega
      rcases decodeRune_cases b rest hb2 with e | ⟨b1, r, rfl, v⟩ | ⟨b1, b2, r, rfl, v⟩ |
        ⟨b1, b2, b3, r, rfl, v⟩
      · rw [escapeString_invalid b rest hb2 e]
        exact stable_append _ _ (stable_ascii _ (by decide))
          (ih rest.length (by omega) rest (le_refl _))
      · rw [escapeString_two _ _ _ v]
        simp only [List.length_cons] at hs
        intro t
        rw [List.append_assoc]
        show coerceUTF8 (b :: b1 :: (escapeString r ++ t)) = _
        rw [coerceUTF8_two _ _ _ v, ih r.length (by omega) r (le_refl _) t]
        simp
      · rw [escapeString_three _ _ _ _ v]
        simp only [List.length_cons] at hs
        have ihr := ih r.length (by omega) r (le_refl _)
        split_ifs with c
        · refine stable_append _ _ (stable_ascii _ ?_) ihr
          have := hexDigit_ascii (b2 % 16) (by omega)
          intro c hc
          rcases List.mem_append.1 hc with hc | hc
          · exact (show ∀ c ∈ lit "\\u202", c < 0x80 by decide) c hc
          · simp only [List.mem_singleton] at hc; omega
        · intro t
          rw [List.append_assoc]
          show coerceUTF8 (b :: b1 :: b2 :: (escapeString r ++ t)) = _
          rw [coerceUTF8_three _ _ _ _ v, ihr t]
          simp
      · rw [escapeString_four _ _ _ _ _ v]
        simp only [List.length_cons] at hs
        intro t
        rw [List.append_assoc]
        show coerceUTF8 (b :: b1 :: b2 :: b3 :: (escapeString r ++ t)) = _
        rw [coerceUTF8_four _ _ _ _ _ v, ih r.length (by omega) r (le_refl _) t]
        simp

theorem stable_encodeString (s : Bytes) : Stable (encodeString s) := by
  unfold encodeString
  exact stable_append _ _ (stable_append _ _ (stable_ascii _ (by decide))
    (stable_escapeString s.length s (le_refl _))) (stable_ascii _ (by decide))

theorem stable_formatInt (i : Int) : Stable (formatInt i) :=
  stable_ascii _ (formatInt_ascii i)

theorem stable_member (x : Bytes) (c : Nat) (name : String) (v : Bytes) (hx : Stable x)
    (hc : c < 0x80) (hn : ∀ b ∈ fieldName name, b < 0x80) (hv : Stable v) :
    Stable (x ++ [c] ++ fieldName name ++ v) := by
  refine stable_append _ _ (stable_append _ _ (stable_append _ _ hx (stable_ascii _ ?_))
    (stable_ascii _ hn)) hv
  intro b hb
  simp only [List.mem_singleton] at hb
  omega

theorem stable_first (c : Nat) (name : String) (v : Bytes)
    (hc : c < 0x80) (hn : ∀ b ∈ fieldName name, b < 0x80) (hv : Stable v) :
    Stable ([c] ++ fieldName name ++ v) := by
  refine stable_append _ _ (stable_append _ _ (stable_ascii _ ?_) (stable_ascii _ hn)) hv
  intro b hb
  simp only [List.mem_singleton] at hb
  omega

theorem stable_marshalLogsEvent (ev : LogsEvent) : Stable (marshalLogsEvent ev) := by
  unfold marshalLogsEvent
  exact stable_append _ _
    (stable_member _ _ _ _
      (stable_member _ _ _ _
        (stable_first _ _ _ (by decide) (by decide) (stable_encodeString _))
        (by decide) (by decide) (stable_encodeString _))
      (by decide) (by decide) (stable_formatInt _))
    (stable_ascii _ (by decide))

theorem stable_marshalLogsEvents (es : List LogsEvent) : Stable (marshalLogsEvents es) := by
  induction es with
  | nil => exact stable_nil
  | cons e es ih =>
    rcases es with _ | ⟨e2, es⟩
    · exact stable_marshalLogsEvent e
    · show Stable (marshalLogsEvent e ++ [0x2C] ++ marshalLogsEvents (e2 :: es))
      exact stable_append _ _ (stable_append _ _ (stable_marshalLogsEvent e)
        (stable_ascii _ (by decide))) ih

theorem stable_marshalLogsEntry (e : LogsEntry) : Stable (marshalLogsEntry e) := by
  have hs : Stable (marshalLogsEventSlice e.LogEvents) := by
    unfold marshalLogsEventSlice
    split_ifs
    · exact stable_ascii _ (by decide)
    · exact stable_append _ _ (stable_append _ _ (stable_ascii _ (by decide))
        (stable_marshalLogsEvents _)) (stable_ascii _ (by decide))
  unfold marshalLogsEntry
  exact stable_append _ _
    (stable_member _ _ _ _
      (stable_member _ _ _ _
        (stable_member _ _ _ _
          (stable_member _ _ _ _
            (stable_first _ _ _ (by decide) (by decide) hs)
            (by decide) (by decide) (stable_encodeString _))
          (by decide) (by decide) (stable_encodeString _))
        (by decide) (by decide) (stable_encodeString _))
      (by decide) (by decide) (stable_encodeString _))
    (stable_ascii _ (by decide))

/-- The text `encoding/json` writes for a `LogsEntry` is valid UTF-8: writing it as a
JSON string and reading the string back gives the same bytes. -/
theorem coerceUTF8_marshalLogsEntry (e : LogsEntry) :
    coerceUTF8 (marshalLogsEntry e) = marshalLogsEntry e := by
  have := stable_marshalLogsEntry e []
  rwa [List.append_nil, coerceUTF8_nil, List.append_nil] at this

/-! ### The request -/

theorem header_adds (userAgent licenseKey : Bytes) :
    (((Header.Add [] (lit "Content-Encoding") (lit "gzip")).Add (lit "Content-Type")
      (lit "application/json")).Add (lit "User-Agent") userAgent).Add (lit "X-License-Key")
      licenseKey = requestHeader userAgent licenseKey := by
  have k1 : canonicalMIMEHeaderKey (lit "Content-Encoding") = lit "Content-Encoding" := by decide
  have k2 : canonicalMIMEHeaderKey (lit "Content-Type") = lit "Content-Type" := by decide
  have k3 : canonicalMIMEHeaderKey (lit "User-Agent") = lit "User-Agent" := by decide
  have k4 : canonicalMIMEHeaderKey (lit "X-License-Key") = lit "X-License-Key" := by decide
  have n12 : ¬ lit "Content-Encoding" = lit "Content-Type" := by decide
  have n13 : ¬ lit "Content-Encoding" = lit "User-Agent" := by decide
  have n14 : ¬ lit "Content-Encoding" = lit "X-License-Key" := by decide
  have n23 : ¬ lit "Content-Type" = lit "User-Agent" := by decide
  have n24 : ¬ lit "Content-Type" = lit "X-License-Key" := by decide
  have n34 : ¬ lit "User-Agent" = lit "X-License-Key" := by decide
  simp only [Header.Add, k1, k2, k3, k4, headerAppend, if_neg n12, if_neg n13, if_neg n14,
    if_neg n23, if_neg n24, if_neg n34, requestHeader]

/-- What `BuildRequest` does with a non-nil invocation event. -/
theorem BuildRequest_some {U : Type} (env : Env U) (payload : Bytes) (ev : InvocationEvent)
    (functionName licenseKey url userAgent : Bytes) :
    BuildRequest env payload (some ev) functionName licenseKey url userAgent =
      match env.compress (uncompressedBody env payload ev functionName) with
      | .error err => .returned none (some ⟨lit "error compressing data: " ++ err.message⟩)
      | .ok compressed =>
        match env.parseURL url with
        | .error err => .returned none (some ⟨lit "error creating request: " ++ err.message⟩)
        | .ok u =>
          .returned (some { Method := lit "POST", URL := u,
                            Header := requestHeader userAgent licenseKey,
                            Body := compressed, ContentLength := compressed.length }) none := by
  have hm : validMethod (lit "POST") = true := by decide
  have hp : ¬ lit "POST" = [] := by decide
  simp only [BuildRequest, jsonMarshalLogsEntry, jsonMarshalRequestData, uncompressedBody,
    NewRequest, if_neg hp, hm, Bool.not_true, Bool.false_eq_true, if_false]
  cases hc : env.compress (marshalRequestData
      { Context := buildContext ev functionName,
        Entry := marshalLogsEntry (buildLogEntry env payload functionName) }) with
  | error e => rfl
  | ok c =>
    cases hu : env.parseURL url with
    | error e => rfl
    | ok u =>
      simp only [header_adds]

/-- A successful call had a non-nil event, a successful compression and a URL that
parses; the request is built from their results. -/
theorem BuildRequest_success {U : Type} (env : Env U) (payload : Bytes)
    (invocationEvent : Option InvocationEvent) (functionName licenseKey url userAgent : Bytes)
    (req : Request U)
    (h : BuildRequest env payload invocationEvent functionName licenseKey url userAgent =
      .returned (some req) none) :
    ∃ ev c u, invocationEvent = some ev ∧
      env.compress (uncompressedBody env payload ev functionName) = .ok c ∧
      env.parseURL url = .ok u ∧
      req = { Method := lit "POST", URL := u, Header := requestHeader userAgent licenseKey,
              Body := c, ContentLength := c.length } := by
  rcases invocationEvent with _ | ev
  · simp [BuildRequest, jsonMarshalLogsEntry] at h
  · rw [BuildRequest_some] at h
    cases hc : env.compress (uncompressedBody env payload ev functionName) with
    | error e => rw [hc] at h; simp at h
    | ok c =>
      cases hu : env.parseURL url with
      | error e => rw [hc, hu] at h; simp at h
      | ok u =>
        rw [hc, hu] at h
        simp only [Outcome.returned.injEq, Option.some.injEq, and_true] at h
        exact ⟨ev, c, u, rfl, hc, rfl, h.symm⟩

/-- The decoded body of a successful call. -/
theorem decodeBody_BuildRequest {U : Type} (env : Env U) (decompress : Bytes → Option Bytes)
    (hcodec : Lossless env.compress decompress) (payload : Bytes)
    (invocationEvent : Option InvocationEvent) (functionName licenseKey url userAgent : Bytes)
    (req : Request U)
    (h : BuildRequest env payload invocationEvent functionName licenseKey url userAgent =
      .returned (some req) none) :
    ∃ ev, invocationEvent = some ev ∧
      decodeBody decompress req.Body = some (dataJSON
        { Context := buildContext ev functionName,
          Entry := marshalLogsEntry (buildLogEntry env payload functionName) }) := by
  obtain ⟨ev, c, u, rfl, hc, hu, rfl⟩ := BuildRequest_success env payload invocationEvent
    functionName licenseKey url userAgent req h
  refine ⟨ev, rfl, ?_⟩
  simp only [decodeBody, hcodec _ _ hc, Option.some_bind, uncompressedBody, parseJSON_data]

/-! ### Sample calls -/

theorem sample_lossless : Lossless sampleEnv.compress sampleDecompress := by
  intro b c h
  cases h
  rfl

theorem sample_success (payload functionName : Bytes) :
    BuildRequest sampleEnv payload (some sampleEvent) functionName (lit "key")
      (lit "https://example.com/v1") (lit "ua") =
      .returned (some (sampleRequest payload functionName)) none := by
  rw [BuildRequest_some]
  rfl

theorem coerceUTF8_logGroup (functionName : Bytes) :
    coerceUTF8 (lit "/aws/lambda/" ++ functionName) =
      lit "/aws/lambda/" ++ coerceUTF8 functionName :=
  stable_ascii _ (by decide) functionName

/-- The parsed entry of a successful call. -/
theorem entryDoc_BuildRequest {U : Type} (env : Env U) (payload functionName : Bytes)
    (ev : InvocationEvent) :
    entryDoc (dataJSON
      { Context := buildContext ev functionName,
        Entry := marshalLogsEntry (buildLogEntry env payload functionName) }) =
      some (entryJSON (buildLogEntry env payload functionName)) := by
  show (some (coerceUTF8 (marshalLogsEntry (buildLogEntry env payload functionName)))).bind
    parseJSON = _
  rw [coerceUTF8_marshalLogsEntry, Option.some_bind]
  exact parseJSON_entry _ _ rfl

/-- The request `BuildRequest` returns in `sampleEnv` for another license key, URL and
user agent. -/
theorem sample_success_other (payload functionName : Bytes) :
    BuildRequest sampleEnv payload (some sampleEvent) functionName (lit "other-key")
      (lit "https://example.org/v2") (lit "ua/2") =
      .returned (some { sampleRequest payload functionName with
        URL := lit "https://example.org/v2",
        Header := requestHeader (lit "ua/2") (lit "other-key") }) none := by
  rw [BuildRequest_some]
  rfl

/-! ## The claims -/

/-- C1, as stated, fails: for the function name `"\xff"` (not valid UTF-8) the call
succeeds and the decoded `context.function_name` is U+FFFD, not the function name. -/
theorem function_name_not_verbatim :
    ∃ req doc,
      BuildRequest sampleEnv (lit "hello world") (some sampleEvent) [0xFF] (lit "key")
        (lit "https://example.com/v1") (lit "ua") = .returned (some req) none ∧
      decodeBody sampleDecompress req.Body = some doc ∧
      contextField doc "function_name" = some [0xEF, 0xBF, 0xBD] ∧
      contextField doc "function_name" ≠ some [0xFF] := by
  obtain ⟨ev, hev, hd⟩ := decodeBody_BuildRequest sampleEnv sampleDecompress sample_lossless
    _ _ _ _ _ _ _ (sample_success (lit "hello world") [0xFF])
  cases hev
  refine ⟨_, _, sample_success _ _, hd, ?_, ?_⟩
  · show some (coerceUTF8 [0xFF]) = _
    decide
  · show some (coerceUTF8 [0xFF]) ≠ _
    decide

/-- C1, amended: when `BuildRequest` succeeds, the decompressed body parses as JSON to an
object whose `context.function_name` is the function name as `encoding/json` writes it
(invalid UTF-8 bytes replaced by U+FFFD) and whose `context.log_group_name` is
`/aws/lambda/` followed by that; for a function name that is valid UTF-8 they are the
function name itself and `/aws/lambda/` followed by it. -/
theorem context_names_decoded {U : Type} (env : Env U) (decompress : Bytes → Option Bytes)
    (payload : Bytes) (invocationEvent : Option InvocationEvent)
    (functionName licenseKey url userAgent : Bytes) (req : Request U)
    (hcodec : Lossless env.compress decompress)
    (h : BuildRequest env payload invocationEvent functionName licenseKey url userAgent =
      .returned (some req) none) :
    ∃ doc, decodeBody decompress req.Body = some doc ∧
      contextField doc "function_name" = some (coerceUTF8 functionName) ∧
      contextField doc "log_group_name" = some (lit "/aws/lambda/" ++ coerceUTF8 functionName) ∧
      (validUTF8 functionName = true →
        contextField doc "function_name" = some functionName ∧
        contextField doc "log_group_name" = some (lit "/aws/lambda/" ++ functionName)) := by
  obtain ⟨ev, _, hd⟩ := decodeBody_BuildRequest env decompress hcodec payload invocationEvent
    functionName licenseKey url userAgent req h
  refine ⟨_, hd, rfl, ?_, ?_⟩
  · show some (coerceUTF8 (lit "/aws/lambda/" ++ functionName)) = _
    rw [coerceUTF8_logGroup]
  · intro hv
    have e := coerceUTF8_of_valid functionName.length functionName (le_refl _) hv
    constructor
    · show some (coerceUTF8 functionName) = _
      rw [e]
    · show some (coerceUTF8 (lit "/aws/lambda/" ++ functionName)) = _
      rw [coerceUTF8_logGroup, e]

/-- C1 at the example of the spec: payload `hello world`, function name `my-func`. -/
theorem context_names_decoded_witness :
    (Lossless sampleEnv.compress sampleDecompress ∧
      BuildRequest sampleEnv (lit "hello world") (some sampleEvent) (lit "my-func") (lit "key")
        (lit "https://example.com/v1") (lit "ua") =
        .returned (some (sampleRequest (lit "hello world") (lit "my-func"))) none ∧
      validUTF8 (lit "my-func") = true) ∧
    ∃ doc, decodeBody sampleDecompress (sampleRequest (lit "hello world") (lit "my-func")).Body =
        some doc ∧
      contextField doc "function_name" = some (lit "my-func") ∧
      contextField doc "log_group_name" = some (lit "/aws/lambda/my-func") := by
  refine ⟨⟨sample_lossless, sample_success _ _, by decide⟩, ?_⟩
  obtain ⟨doc, hd, _, _, hv⟩ := context_names_decoded sampleEnv sampleDecompress
    (lit "hello world") (some sampleEvent) (lit "my-func") (lit "key")
    (lit "https://example.com/v1") (lit "ua") _ sample_lossless (sample_success _ _)
  exact ⟨doc, hd, (hv (by decide)).1, (hv (by decide)).2⟩

/-- C2, as stated, fails: for the payload `"\xff"` (not valid UTF-8) the call succeeds
and the message of the single log event is U+FFFD, not the text of the payload. -/
theorem message_not_verbatim :
    ∃ req doc entry evj,
      BuildRequest sampleEnv [0xFF] (some sampleEvent) (lit "my-func") (lit "key")
        (lit "https://example.com/v1") (lit "ua") = .returned (some req) none ∧
      decodeBody sampleDecompress req.Body = some doc ∧ entryDoc doc = some entry ∧
      logEventsOf entry = some [evj] ∧
      stringField evj "message" = some [0xEF, 0xBF, 0xBD] ∧
      stringField evj "message" ≠ some [0xFF] := by
  obtain ⟨ev, hev, hd⟩ := decodeBody_BuildRequest sampleEnv sampleDecompress sample_lossless
    _ _ _ _ _ _ _ (sample_success [0xFF] (lit "my-func"))
  cases hev
  refine ⟨_, _, _, _, sample_success _ _, hd, entryDoc_BuildRequest _ _ _ _, rfl, ?_, ?_⟩
  · show some (coerceUTF8 [0xFF]) = _
    decide
  · show some (coerceUTF8 [0xFF]) ≠ _
    decide

/-- C2, amended: when `BuildRequest` succeeds, the `entry` string of the decoded body
parses as JSON to a record whose `logEvents` list has exactly one element, and that
element's `message` is the payload as `encoding/json` writes it (invalid UTF-8 bytes
replaced by U+FFFD): the text of the payload itself when the payload is valid UTF-8, the
empty string for the empty payload. The empty payload is no error: with it the call
succeeds whenever the event is not nil, the compressor succeeds and the URL parses, and
the message of its single event is the empty string. -/
theorem single_event_message {U : Type} (env : Env U) (payload : Bytes)
    (invocationEvent : Option InvocationEvent)
    (functionName licenseKey url userAgent : Bytes) :
    (∀ (decompress : Bytes → Option Bytes) (req : Request U),
      Lossless env.compress decompress →
      BuildRequest env payload invocationEvent functionName licenseKey url userAgent =
        .returned (some req) none →
      ∃ doc entry evj, decodeBody decompress req.Body = some doc ∧ entryDoc doc = some entry ∧
        logEventsOf entry = some [evj] ∧
        stringField evj "message" = some (coerceUTF8 payload) ∧
        (validUTF8 payload = true → stringField evj "message" = some payload) ∧
        (payload = [] → stringField evj "message" = some [])) ∧
    (∀ (ev : InvocationEvent) (c : Bytes) (u : U),
      env.compress (uncompressedBody env [] ev functionName) = .ok c →
      env.parseURL url = .ok u →
      ∃ req0, BuildRequest env [] (some ev) functionName licenseKey url userAgent =
          .returned (some req0) none ∧
        ∀ decompress : Bytes → Option Bytes, Lossless env.compress decompress →
          ∃ doc entry evj, decodeBody decompress req0.Body = some doc ∧
            entryDoc doc = some entry ∧ logEventsOf entry = some [evj] ∧
            stringField evj "message" = some []) := by
  constructor
  · intro decompress req hcodec h
    obtain ⟨ev, _, hd⟩ := decodeBody_BuildRequest env decompress hcodec payload invocationEvent
      functionName licenseKey url userAgent req h
    refine ⟨_, _, _, hd, entryDoc_BuildRequest _ _ _ _, rfl, rfl, ?_, ?_⟩
    · intro hv
      have e := coerceUTF8_of_valid payload.length payload (le_refl _) hv
      show some (coerceUTF8 payload) = _
      rw [e]
    · intro hp
      subst hp
      rfl
  · intro ev c u hc hu
    have hs : BuildRequest env [] (some ev) functionName licenseKey url userAgent =
        .returned (some { Method := lit "POST", URL := u,
                          Header := requestHeader userAgent licenseKey,
                          Body := c, ContentLength := c.length }) none := by
      rw [BuildRequest_some, hc, hu]
    refine ⟨_, hs, ?_⟩
    intro decompress hcodec
    obtain ⟨ev2, hev, hd⟩ := decodeBody_BuildRequest env decompress hcodec [] (some ev)
      functionName licenseKey url userAgent _ hs
    cases hev
    exact ⟨_, _, _, hd, entryDoc_BuildRequest _ _ _ _, rfl, rfl⟩

/-- C2 at the examples of the spec: the payload `hello world` and the empty payload. -/
theorem single_event_message_witness :
    (Lossless sampleEnv.compress sampleDecompress ∧
      BuildRequest sampleEnv (lit "hello world") (some sampleEvent) (lit "my-func") (lit "key")
        (lit "https://example.com/v1") (lit "ua") =
        .returned (some (sampleRequest (lit "hello world") (lit "my-func"))) none ∧
      validUTF8 (lit "hello world") = true ∧
      sampleEnv.compress (uncompressedBody sampleEnv [] sampleEvent (lit "my-func")) =
        .ok (0x1F :: 0x8B :: uncompressedBody sampleEnv [] sampleEvent (lit "my-func")) ∧
      sampleEnv.parseURL (lit "https://example.com/v1") = .ok (lit "https://example.com/v1")) ∧
    (∃ doc entry evj,
      decodeBody sampleDecompress (sampleRequest (lit "hello world") (lit "my-func")).Body =
        some doc ∧
      entryDoc doc = some entry ∧ logEventsOf entry = some [evj] ∧
      stringField evj "message" = some (lit "hello world")) ∧
    (∃ req0, BuildRequest sampleEnv [] (some sampleEvent) (lit "my-func") (lit "key")
        (lit "https://example.com/v1") (lit "ua") = .returned (some req0) none ∧
      ∃ doc entry evj, decodeBody sampleDecompress req0.Body = some doc ∧
        entryDoc doc = some entry ∧ logEventsOf entry = some [evj] ∧
        stringField evj "message" = some []) := by
  refine ⟨⟨sample_lossless, sample_success _ _, by decide, rfl, rfl⟩, ?_, ?_⟩
  · obtain ⟨doc, entry, evj, hd, he, hl, _, hv, _⟩ := (single_event_message sampleEnv
      (lit "hello world") (some sampleEvent) (lit "my-func") (lit "key")
      (lit "https://example.com/v1") (lit "ua")).1 sampleDecompress _ sample_lossless
      (sample_success _ _)
    exact ⟨doc, entry, evj, hd, he, hl, hv (by decide)⟩
  · obtain ⟨req0, hs, hm⟩ := (single_event_message sampleEnv (lit "hello world")
      (some sampleEvent) (lit "my-func") (lit "key") (lit "https://example.com/v1")
      (lit "ua")).2 sampleEvent _ _ rfl rfl
    exact ⟨req0, hs, hm sampleDecompress sample_lossless⟩

/-- C3: when `BuildRequest` succeeds, the header of the request has exactly the four keys
`Content-Encoding`, `Content-Type`, `User-Agent` and `X-License-Key`, each with one
value: `gzip`, `application/json`, the user agent and the license key of the caller. -/
theorem header_exact {U : Type} (env : Env U) (payload : Bytes)
    (invocationEvent : Option InvocationEvent)
    (functionName licenseKey url userAgent : Bytes) (req : Request U)
    (h : BuildRequest env payload invocationEvent functionName licenseKey url userAgent =
      .returned (some req) none) :
    req.Header =
      [(lit "Content-Encoding", [lit "gzip"]), (lit "Content-Type", [lit "application/json"]),
       (lit "User-Agent", [userAgent]), (lit "X-License-Key", [licenseKey])] := by
  obtain ⟨ev, c, u, _, _, _, rfl⟩ := BuildRequest_success env payload invocationEvent
    functionName licenseKey url userAgent req h
  rfl

/-- C3 at a sample call. -/
theorem header_exact_witness :
    BuildRequest sampleEnv (lit "hello world") (some sampleEvent) (lit "my-func") (lit "key")
      (lit "https://example.com/v1") (lit "ua") =
      .returned (some (sampleRequest (lit "hello world") (lit "my-func"))) none ∧
    (sampleRequest (lit "hello world") (lit "my-func")).Header =
      [(lit "Content-Encoding", [lit "gzip"]), (lit "Content-Type", [lit "application/json"]),
       (lit "User-Agent", [lit "ua"]), (lit "X-License-Key", [lit "key"])] :=
  ⟨sample_success _ _, header_exact sampleEnv (lit "hello world") (some sampleEvent)
    (lit "my-func") (lit "key") (lit "https://example.com/v1") (lit "ua") _
    (sample_success _ _)⟩

/-- C4: when `BuildRequest` succeeds, the decompressed body parses as a JSON object whose
`entry` member is a JSON string, and the text of that string is exactly the bytes
`json.Marshal(logEntry)` returned. -/
theorem entry_is_encoded_string {U : Type} (env : Env U) (decompress : Bytes → Option Bytes)
    (payload : Bytes) (invocationEvent : Option InvocationEvent)
    (functionName licenseKey url userAgent : Bytes) (req : Request U)
    (hcodec : Lossless env.compress decompress)
    (h : BuildRequest env payload invocationEvent functionName licenseKey url userAgent =
      .returned (some req) none) :
    ∃ doc entry, decodeBody decompress req.Body = some doc ∧
      jsonMarshalLogsEntry (buildLogEntry env payload functionName) = .ok entry ∧
      doc.get (lit "entry") = some (JSON.str entry) := by
  obtain ⟨ev, _, hd⟩ := decodeBody_BuildRequest env decompress hcodec payload invocationEvent
    functionName licenseKey url userAgent req h
  refine ⟨_, _, hd, rfl, ?_⟩
  show some (JSON.str (coerceUTF8 (marshalLogsEntry (buildLogEntry env payload functionName))))
    = _
  rw [coerceUTF8_marshalLogsEntry]

/-- C4 at a sample call. -/
theorem entry_is_encoded_string_witness :
    (Lossless sampleEnv.compress sampleDecompress ∧
      BuildRequest sampleEnv (lit "hello world") (some sampleEvent) (lit "my-func") (lit "key")
        (lit "https://example.com/v1") (lit "ua") =
        .returned (some (sampleRequest (lit "hello world") (lit "my-func"))) none) ∧
    ∃ doc entry,
      decodeBody sampleDecompress (sampleRequest (lit "hello world") (lit "my-func")).Body =
        some doc ∧
      jsonMarshalLogsEntry (buildLogEntry sampleEnv (lit "hello world") (lit "my-func")) =
        .ok entry ∧
      doc.get (lit "entry") = some (JSON.str entry) :=
  ⟨⟨sample_lossless, sample_success _ _⟩,
    entry_is_encoded_string sampleEnv sampleDecompress (lit "hello world") (some sampleEvent)
      (lit "my-func") (lit "key") (lit "https://example.com/v1") (lit "ua") _ sample_lossless
      (sample_success _ _)⟩

/-- C5, as stated, fails: with a nil invocation event `BuildRequest` stops on the
dereference of line 67 and returns neither a request nor an error. -/
theorem nil_event_returns_nothing :
    BuildRequest sampleEnv (lit "hello world") none (lit "my-func") (lit "key")
        (lit "https://example.com/v1") (lit "ua") = Outcome.nilDereference ∧
    ¬ ((∃ req, BuildRequest sampleEnv (lit "hello world") none (lit "my-func") (lit "key")
          (lit "https://example.com/v1") (lit "ua") = .returned (some req) none) ∨
       (∃ err, BuildRequest sampleEnv (lit "hello world") none (lit "my-func") (lit "key")
          (lit "https://example.com/v1") (lit "ua") = .returned none (some err))) := by
  have e : BuildRequest sampleEnv (lit "hello world") none (lit "my-func") (lit "key")
      (lit "https://example.com/v1") (lit "ua") = Outcome.nilDereference := rfl
  refine ⟨e, ?_⟩
  rw [e]
  rintro (⟨_, h⟩ | ⟨_, h⟩) <;> cases h

/-- C5, amended: with an invocation event that is not nil, `BuildRequest` returns either
a request and no error or no request and an error, never both and never neither; a
failure of the compressor or of the request construction yields no request (the JSON
encoding of these records cannot fail). -/
theorem request_or_error {U : Type} (env : Env U) (payload : Bytes) (ev : InvocationEvent)
    (functionName licenseKey url userAgent : Bytes) :
    ((∃ req, BuildRequest env payload (some ev) functionName licenseKey url userAgent =
        .returned (some req) none) ∨
     (∃ err, BuildRequest env payload (some ev) functionName licenseKey url userAgent =
        .returned none (some err))) ∧
    (∀ e, env.compress (uncompressedBody env payload ev functionName) = .error e →
      ∃ err, BuildRequest env payload (some ev) functionName licenseKey url userAgent =
        .returned none (some err)) ∧
    (∀ c e, env.compress (uncompressedBody env payload ev functionName) = .ok c →
      NewRequest env.parseURL (lit "POST") url c = .error e →
      ∃ err, BuildRequest env payload (some ev) functionName licenseKey url userAgent =
        .returned none (some err)) := by
  rw [BuildRequest_some]
  cases hc : env.compress (uncompressedBody env payload ev functionName) with
  | error e0 =>
    refine ⟨Or.inr ⟨_, rfl⟩, fun _ _ => ⟨_, rfl⟩, fun c e h => ?_⟩
    cases h
  | ok c0 =>
    cases hu : env.parseURL url with
    | error e0 =>
      refine ⟨Or.inr ⟨_, rfl⟩, fun e h => ?_, fun _ _ _ _ => ⟨_, rfl⟩⟩
      cases h
    | ok u =>
      refine ⟨Or.inl ⟨_, rfl⟩, fun e h => ?_, fun c e h1 h2 => ?_⟩
      · cases h
      · exfalso
        have hm : validMethod (lit "POST") = true := by decide
        have hp : ¬ lit "POST" = [] := by decide
        simp only [NewRequest, if_neg hp, hm, Bool.not_true, Bool.false_eq_true, if_false,
          hu] at h2
        cases h2

/-- C6: when `BuildRequest` fails, the failure is one of the compressor, and the error
text is `error compressing data: ` followed by the compressor's error, or one of the
request construction, and the error text is `error creating request: ` followed by its
error; the two texts never coincide. The JSON encoding of these records cannot fail. -/
theorem error_names_stage {U : Type} (env : Env U) (payload : Bytes)
    (invocationEvent : Option InvocationEvent)
    (functionName licenseKey url userAgent : Bytes) (err : GoError)
    (h : BuildRequest env payload invocationEvent functionName licenseKey url userAgent =
      .returned none (some err)) :
    (∃ ev, invocationEvent = some ev ∧
      ((∃ e, env.compress (uncompressedBody env payload ev functionName) = .error e ∧
          err.message = lit "error compressing data: " ++ e.message) ∨
       (∃ c e, env.compress (uncompressedBody env payload ev functionName) = .ok c ∧
          NewRequest env.parseURL (lit "POST") url c = .error e ∧
          err.message = lit "error creating request: " ++ e.message))) ∧
    (∀ a b : Bytes, lit "error compressing data: " ++ a ≠ lit "error creating request: " ++ b) ∧
    (∀ e, ∃ out, jsonMarshalLogsEntry e = .ok out) ∧
    (∀ d, ∃ out, jsonMarshalRequestData d = .ok out) := by
  refine ⟨?_, ?_, fun e => ⟨_, rfl⟩, fun d => ⟨_, rfl⟩⟩
  · rcases invocationEvent with _ | ev
    · simp [BuildRequest, jsonMarshalLogsEntry] at h
    refine ⟨ev, rfl, ?_⟩
    rw [BuildRequest_some] at h
    cases hc : env.compress (uncompressedBody env payload ev functionName) with
    | error e0 =>
      rw [hc] at h
      simp only [Outcome.returned.injEq, Option.some.injEq, true_and] at h
      exact Or.inl ⟨e0, rfl, by rw [← h]⟩
    | ok c0 =>
      cases hu : env.parseURL url with
      | error e0 =>
        rw [hc, hu] at h
        simp only [Outcome.returned.injEq, Option.some.injEq, true_and] at h
        refine Or.inr ⟨c0, e0, rfl, ?_, by rw [← h]⟩
        have hm : validMethod (lit "POST") = true := by decide
        have hp : ¬ lit "POST" = [] := by decide
        simp only [NewRequest, if_neg hp, hm, Bool.not_true, Bool.false_eq_true, if_false, hu]
      | ok u =>
        rw [hc, hu] at h
        simp at h
  · intro a b hab
    have e1 : lit "error compressing data: " ++ a =
        0x65 :: 0x72 :: 0x72 :: 0x6F :: 0x72 :: 0x20 :: 0x63 :: 0x6F ::
          (lit "mpressing data: " ++ a) := rfl
    have e2 : lit "error creating request: " ++ b =
        0x65 :: 0x72 :: 0x72 :: 0x6F :: 0x72 :: 0x20 :: 0x63 :: 0x72 ::
          (lit "eating request: " ++ b) := rfl
    rw [e1, e2] at hab
    simp at hab

/-- C6 at a sample call whose compressor fails. -/
theorem error_names_stage_witness :
    BuildRequest failingEnv (lit "hello world") (some sampleEvent) (lit "my-func") (lit "key")
      (lit "https://example.com/v1") (lit "ua") =
      .returned none (some ⟨lit "error compressing data: short write"⟩) ∧
    ∃ ev, some sampleEvent = some ev ∧
      ((∃ e, failingEnv.compress (uncompressedBody failingEnv (lit "hello world") ev
            (lit "my-func")) = .error e ∧
          (GoError.mk (lit "error compressing data: short write")).message =
            lit "error compressing data: " ++ e.message) ∨
       (∃ c e, failingEnv.compress (uncompressedBody failingEnv (lit "hello world") ev
            (lit "my-func")) = .ok c ∧
          NewRequest failingEnv.parseURL (lit "POST") (lit "https://example.com/v1") c =
            .error e ∧
          (GoError.mk (lit "error compressing data: short write")).message =
            lit "error creating request: " ++ e.message)) :=
  ⟨rfl, (error_names_stage failingEnv (lit "hello world") (some sampleEvent) (lit "my-func")
    (lit "key") (lit "https://example.com/v1") (lit "ua") _ rfl).1⟩

/-- C7: when `BuildRequest` succeeds, the request has the method `POST`, its URL is the
parsed URL of the caller, and its body is exactly what the compressor returned for the
bytes `json.Marshal(data)` returned. -/
theorem request_line_and_body {U : Type} (env : Env U) (payload : Bytes)
    (invocationEvent : Option InvocationEvent)
    (functionName licenseKey url userAgent : Bytes) (req : Request U)
    (h : BuildRequest env payload invocationEvent functionName licenseKey url userAgent =
      .returned (some req) none) :
    req.Method = lit "POST" ∧ env.parseURL url = .ok req.URL ∧
    ∃ ev entry uncompressed, invocationEvent = some ev ∧
      jsonMarshalLogsEntry (buildLogEntry env payload functionName) = .ok entry ∧
      jsonMarshalRequestData { Context := buildContext ev functionName, Entry := entry } =
        .ok uncompressed ∧
      env.compress uncompressed = .ok req.Body := by
  obtain ⟨ev, c, u, rfl, hc, hu, rfl⟩ := BuildRequest_success env payload invocationEvent
    functionName licenseKey url userAgent req h
  exact ⟨rfl, hu, ev, _, _, rfl, rfl, rfl, hc⟩

/-- C7 at a sample call. -/
theorem request_line_and_body_witness :
    BuildRequest sampleEnv (lit "hello world") (some sampleEvent) (lit "my-func") (lit "key")
      (lit "https://example.com/v1") (lit "ua") =
      .returned (some (sampleRequest (lit "hello world") (lit "my-func"))) none ∧
    (sampleRequest (lit "hello world") (lit "my-func")).Method = lit "POST" ∧
    sampleEnv.parseURL (lit "https://example.com/v1") =
      .ok (sampleRequest (lit "hello world") (lit "my-func")).URL :=
  ⟨sample_success _ _,
    (request_line_and_body sampleEnv (lit "hello world") (some sampleEvent) (lit "my-func")
      (lit "key") (lit "https://example.com/v1") (lit "ua") _ (sample_success _ _)).1,
    (request_line_and_body sampleEnv (lit "hello world") (some sampleEvent) (lit "my-func")
      (lit "key") (lit "https://example.com/v1") (lit "ua") _ (sample_success _ _)).2.1⟩

/-- C8: the log group name of the log entry and the log group name of the request
context are the same string, `/aws/lambda/` followed by the function name; and in the
decoded body of a successful call `context.log_group_name` and the `logGroup` of the
parsed entry are the same string. -/
theorem log_group_consistent {U : Type} (env : Env U) (payload : Bytes) (ev : InvocationEvent)
    (functionName : Bytes) :
    (buildLogEntry env payload functionName).LogGroup =
      (buildContext ev functionName).LogGroupName ∧
    (buildLogEntry env payload functionName).LogGroup = lit "/aws/lambda/" ++ functionName ∧
    (buildContext ev functionName).LogGroupName = lit "/aws/lambda/" ++ functionName ∧
    ∀ (decompress : Bytes → Option Bytes) (licenseKey url userAgent : Bytes) (req : Request U),
      Lossless env.compress decompress →
      BuildRequest env payload (some ev) functionName licenseKey url userAgent =
        .returned (some req) none →
      ∃ doc entry name, decodeBody decompress req.Body = some doc ∧ entryDoc doc = some entry ∧
        contextField doc "log_group_name" = some name ∧
        stringField entry "logGroup" = some name := by
  refine ⟨rfl, rfl, rfl, ?_⟩
  intro decompress licenseKey url userAgent req hcodec h
  obtain ⟨ev2, hev, hd⟩ := decodeBody_BuildRequest env decompress hcodec payload (some ev)
    functionName licenseKey url userAgent req h
  cases hev
  exact ⟨_, _, _, hd, entryDoc_BuildRequest _ _ _ _, rfl, rfl⟩

/-- C9: the log stream name of the request context is the constant `placeholder`,
whatever the arguments; so is `context.log_stream_name` in the decoded body of a
successful call. -/
theorem log_stream_placeholder {U : Type} (env : Env U) (payload : Bytes)
    (ev : InvocationEvent) (functionName : Bytes) :
    (buildContext ev functionName).LogStreamName = lit "placeholder" ∧
    ∀ (decompress : Bytes → Option Bytes) (licenseKey url userAgent : Bytes) (req : Request U),
      Lossless env.compress decompress →
      BuildRequest env payload (some ev) functionName licenseKey url userAgent =
        .returned (some req) none →
      ∃ doc, decodeBody decompress req.Body = some doc ∧
        contextField doc "log_stream_name" = some (lit "placeholder") := by
  refine ⟨rfl, ?_⟩
  intro decompress licenseKey url userAgent req hcodec h
  obtain ⟨ev2, hev, hd⟩ := decodeBody_BuildRequest env decompress hcodec payload (some ev)
    functionName licenseKey url userAgent req h
  cases hev
  refine ⟨_, hd, ?_⟩
  show some (coerceUTF8 (lit "placeholder")) = _
  decide

/-- C10: two successful calls that differ only in the license key, the URL and the user
agent hand the same bytes to the compressor, bytes made from the payload, the event,
the function name, the identifier and the time alone, and return the same body. -/
theorem body_ignores_credentials {U : Type} (env : Env U) (payload : Bytes)
    (invocationEvent : Option InvocationEvent) (functionName : Bytes)
    (licenseKey1 url1 userAgent1 licenseKey2 url2 userAgent2 : Bytes) (req1 req2 : Request U)
    (h1 : BuildRequest env payload invocationEvent functionName licenseKey1 url1 userAgent1 =
      .returned (some req1) none)
    (h2 : BuildRequest env payload invocationEvent functionName licenseKey2 url2 userAgent2 =
      .returned (some req2) none) :
    req1.Body = req2.Body ∧
    ∃ ev, invocationEvent = some ev ∧
      env.compress (uncompressedBody env payload ev functionName) = .ok req1.Body ∧
      env.compress (uncompressedBody env payload ev functionName) = .ok req2.Body := by
  obtain ⟨ev, c, u, rfl, hc, hu, rfl⟩ := BuildRequest_success env payload invocationEvent
    functionName licenseKey1 url1 userAgent1 req1 h1
  obtain ⟨ev2, c2, u2, hev, hc2, hu2, rfl⟩ := BuildRequest_success env payload (some ev)
    functionName licenseKey2 url2 userAgent2 req2 h2
  cases hev
  have : c = c2 := by
    rw [hc] at hc2
    cases hc2
    rfl
  subst this
  exact ⟨rfl, ev, rfl, hc, hc⟩

/-- C10 at two sample calls. -/
theorem body_ignores_credentials_witness :
    (BuildRequest sampleEnv (lit "hello world") (some sampleEvent) (lit "my-func") (lit "key")
      (lit "https://example.com/v1") (lit "ua") =
      .returned (some (sampleRequest (lit "hello world") (lit "my-func"))) none ∧
     BuildRequest sampleEnv (lit "hello world") (some sampleEvent) (lit "my-func")
      (lit "other-key") (lit "https://example.org/v2") (lit "ua/2") =
      .returned (some { sampleRequest (lit "hello world") (lit "my-func") with
        URL := lit "https://example.org/v2",
        Header := requestHeader (lit "ua/2") (lit "other-key") }) none) ∧
    (sampleRequest (lit "hello world") (lit "my-func")).Body =
      ({ sampleRequest (lit "hello world") (lit "my-func") with
        URL := lit "https://example.org/v2",
        Header := requestHeader (lit "ua/2") (lit "other-key") } : Request Bytes).Body :=
  ⟨⟨sample_success _ _, sample_success_other _ _⟩,
    (body_ignores_credentials sampleEnv (lit "hello world") (some sampleEvent) (lit "my-func")
      (lit "key") (lit "https://example.com/v1") (lit "ua") (lit "other-key")
      (lit "https://example.org/v2") (lit "ua/2") _ _ (sample_success _ _)
      (sample_success_other _ _)).1⟩

/-- C8 at a sample call. -/
theorem log_group_consistent_witness :
    (Lossless sampleEnv.compress sampleDecompress ∧
      BuildRequest sampleEnv (lit "hello world") (some sampleEvent) (lit "my-func") (lit "key")
        (lit "https://example.com/v1") (lit "ua") =
        .returned (some (sampleRequest (lit "hello world") (lit "my-func"))) none) ∧
    ∃ doc entry name,
      decodeBody sampleDecompress (sampleRequest (lit "hello world") (lit "my-func")).Body =
        some doc ∧
      entryDoc doc = some entry ∧ contextField doc "log_group_name" = some name ∧
      stringField entry "logGroup" = some name :=
  ⟨⟨sample_lossless, sample_success _ _⟩,
    (log_group_consistent sampleEnv (lit "hello world") sampleEvent (lit "my-func")).2.2.2
      sampleDecompress (lit "key") (lit "https://example.com/v1") (lit "ua") _ sample_lossless
      (sample_success _ _)⟩

/-- C9 at a sample call. -/
theorem log_stream_placeholder_witness :
    (Lossless sampleEnv.compress sampleDecompress ∧
      BuildRequest sampleEnv (lit "hello world") (some sampleEvent) (lit "my-func") (lit "key")
        (lit "https://example.com/v1") (lit "ua") =
        .returned (some (sampleRequest (lit "hello world") (lit "my-func"))) none) ∧
    ∃ doc,
      decodeBody sampleDecompress (sampleRequest (lit "hello world") (lit "my-func")).Body =
        some doc ∧
      contextField doc "log_stream_name" = some (lit "placeholder") :=
  ⟨⟨sample_lossless, sample_success _ _⟩,
    (log_stream_placeholder sampleEnv (lit "hello world") sampleEvent (lit "my-func")).2
      sampleDecompress (lit "key") (lit "https://example.com/v1") (lit "ua") _ sample_lossless
      (sample_success _ _)⟩

end Telemetry
